import Mathlib

set_option maxRecDepth 16384

/-!
Verification of the copilot-proxy-go translation core.

This file shallow-embeds the data model and the translation operations of
the proxy (Anthropic Messages ↔ OpenAI Chat Completions / Responses,
the two streaming state machines, the request normalizer, the token
estimator and the Responses stream ID synchronizer) as executable Lean
definitions, and proves or refutes the frozen specification claims about
them.

Conventions of the embedding:
* Go `int` is modelled as `Int`; Go strings as `String` (byte length via
  `String.utf8ByteSize` where the source uses `len`).
* Go maps are modelled as association lists with first-match lookup;
  insertion conses, so it shadows earlier entries exactly like map update.
* JSON-carrying fields that the source decodes into several shapes
  (`string | []ContentBlock | other`) are modelled as explicit sums with
  an `other` constructor for raw JSON that is neither shape; parse
  failures of whole events are not modelled (the source forwards the
  event unchanged in that case, which no claim depends on).
-/

namespace CopilotProxy

/-! ## String helpers mirroring the Go `strings` package usage -/

/-- Go `strings.Contains s pat` for the non-empty patterns used in the
source (`"@"`, `"claude"`, `"codex"`, …): true iff splitting on the
pattern produces more than one piece. -/
def containsSubstr (s pat : String) : Bool :=
  1 < (s.splitOn pat).length

/-- Split a character list at the first `'@'`.  Returns the characters
before the first `'@'` and, when an `'@'` is present, the characters
after it.  This is Go `strings.SplitN(s, "@", 2)`. -/
def splitFirstAmp : List Char → List Char × Option (List Char)
  | [] => ([], none)
  | c :: rest =>
      if c = '@' then ([], some rest)
      else
        let p := splitFirstAmp rest
        (c :: p.1, p.2)

/-- Go `strings.Contains(s, "@")`, stated on the character level so that
it agrees with `splitFirstAmp`. -/
def containsAmp (s : String) : Bool := s.data.contains '@'

/-! ## Anthropic data model (`types.go`) -/

/-- Anthropic `image.source`. -/
structure ImageSource where
  type : String := ""
  mediaType : String := ""
  data : String := ""
  deriving Repr, DecidableEq

/-- A content block appearing inside a `tool_result.content` array.  The
source only ever reads the `Type`, `Text` and `Source` fields of these
nested blocks, so the embedding records exactly those. -/
structure InnerBlock where
  type : String := ""
  text : String := ""
  source : Option ImageSource := none
  deriving Repr, DecidableEq

/-- The decoded shape of a `json.RawMessage` that the source tries to
unmarshal first as a string and then as an array of content blocks
(`tool_result.content`): `null` for an absent field, `str`/`blocks` for
the two recognised shapes, and `other` for raw JSON that is neither
(the source then falls back to the raw text, carried here verbatim). -/
inductive RawContent where
  | null : RawContent
  | str (s : String) : RawContent
  | blocks (bs : List InnerBlock) : RawContent
  | other (raw : String) : RawContent
  deriving Repr, DecidableEq

/-- Anthropic `ContentBlock`: the flat union of all block variants,
exactly as the Go struct declares it. -/
structure ContentBlock where
  type : String := ""
  text : String := ""
  source : Option ImageSource := none
  id : String := ""
  name : String := ""
  /-- raw JSON of `tool_use.input` (`none` models a nil `RawMessage`). -/
  input : Option String := none
  toolUseId : String := ""
  content : RawContent := .null
  isError : Option Bool := none
  thinking : String := ""
  signature : String := ""
  deriving Repr, DecidableEq

/-- Decoded `AnthropicMsg.Content`: a JSON string, an array of blocks, or
`null`/unparseable (both of which `ParseMessageContent` turns into an
empty block list). -/
inductive MsgContent where
  | null : MsgContent
  | str (s : String) : MsgContent
  | blocks (bs : List ContentBlock) : MsgContent
  deriving Repr, DecidableEq

/-- Anthropic message. -/
structure AnthropicMsg where
  role : String := ""
  content : MsgContent := .null
  deriving Repr, DecidableEq

/-- One `{type, text}` block of an array-shaped `system` prompt. -/
structure SysBlock where
  type : String := ""
  text : String := ""
  deriving Repr, DecidableEq

/-- Decoded `AnthropicRequest.System` (string, array of blocks, or
absent/unparseable). -/
inductive SystemContent where
  | null : SystemContent
  | str (s : String) : SystemContent
  | blocks (bs : List SysBlock) : SystemContent
  deriving Repr, DecidableEq

/-- Anthropic tool definition. -/
structure AnthropicTool where
  name : String := ""
  description : String := ""
  /-- raw JSON of `input_schema` (`none` models nil). -/
  inputSchema : Option String := none
  deriving Repr, DecidableEq

/-- `thinking` request configuration. -/
structure ThinkingConfig where
  type : String := ""
  budgetTokens : Int := 0
  deriving Repr, DecidableEq

/-- Decoded `tool_choice` (`{type, name}`), `none` when absent or
unparseable. -/
structure ToolChoice where
  type : String := ""
  name : String := ""
  deriving Repr, DecidableEq

/-- `metadata` of an Anthropic request. -/
structure AnthropicMeta where
  userId : String := ""
  deriving Repr, DecidableEq

/-- The incoming `POST /v1/messages` payload (the fields the translation
core reads). -/
structure AnthropicRequest where
  model : String := ""
  messages : List AnthropicMsg := []
  maxTokens : Int := 0
  system : SystemContent := .null
  metadata : Option AnthropicMeta := none
  stopSequences : List String := []
  stream : Bool := false
  temperature : Option Float := none
  topP : Option Float := none
  tools : List AnthropicTool := []
  toolChoice : Option ToolChoice := none
  thinking : Option ThinkingConfig := none
  deriving Repr

/-- Anthropic usage block. -/
structure AnthropicUsage where
  inputTokens : Int := 0
  outputTokens : Int := 0
  cacheReadInputTokens : Int := 0
  cacheCreationInputTokens : Int := 0
  deriving Repr, DecidableEq

/-- The Anthropic response returned from `POST /v1/messages`. -/
structure AnthropicResponse where
  id : String := ""
  type : String := ""
  role : String := ""
  content : List ContentBlock := []
  model : String := ""
  stopReason : String := ""
  stopSequence : Option String := none
  usage : AnthropicUsage := {}
  deriving Repr, DecidableEq

/-! ## Shared helpers (`messages_utils.go`, `token.go`) -/

/-- `ParseMessageContent`: a string becomes a single text block, an array
is used as-is, `null`/unparseable becomes the empty list (Go `nil`). -/
def ParseMessageContent : MsgContent → List ContentBlock
  | .null => []
  | .str s => [{ type := "text", text := s }]
  | .blocks bs => bs

/-- `ParseSystemPrompt`: a string is returned as-is; an array of blocks
is reduced to the newline-joined text of its `text` blocks. -/
def ParseSystemPrompt : SystemContent → String
  | .null => ""
  | .str s => s
  | .blocks bs =>
      bs.foldl
        (fun result b =>
          if b.type = "text" then
            (if result ≠ "" then result ++ "\n" else result) ++ b.text
          else result)
        ""

/-- `getToolResultText`: extract the text of a `tool_result.content`
field, which may be a string or an array of blocks (joining the
non-empty texts with newlines); other raw JSON is returned verbatim. -/
def getToolResultText : RawContent → String
  | .null => ""
  | .str s => s
  | .blocks bs =>
      String.intercalate "\n"
        ((bs.filter (fun b => b.type = "text" ∧ b.text ≠ "")).map (·.text))
  | .other raw => raw

/-- `isClaude`: the lowercased model name contains `"claude"`. -/
def isClaude (model : String) : Bool :=
  containsSubstr model.toLower "claude"

/-- `isAllDigits` from `messages_utils.go`. -/
def isAllDigits (s : String) : Bool :=
  s.data.all (fun c => '0' ≤ c ∧ c ≤ '9')

/-- `normalizeModelName`: strip version suffixes from Claude model names
(regex anchors `^claude-sonnet-4-.*` / `^claude-opus-4-.*` become
`String.startsWith`; the fallback drops every `-`-separated segment of
eight or more digits). -/
def normalizeModelName (model : String) : String :=
  if ¬ isClaude model then model
  else if model.startsWith "claude-sonnet-4-" then "claude-sonnet-4"
  else if model.startsWith "claude-opus-4-" then "claude-opus-4"
  else
    String.intercalate "-"
      ((model.splitOn "-").filter (fun p => ¬ (8 ≤ p.length ∧ isAllDigits p)))

/-- `mapStopReason`: OpenAI `finish_reason` → Anthropic `stop_reason`. -/
def mapStopReason (reason : String) : String :=
  if reason = "stop" then "end_turn"
  else if reason = "length" then "max_tokens"
  else if reason = "tool_calls" then "tool_use"
  else if reason = "content_filter" then "end_turn"
  else "end_turn"

/-! ## Model registry (`state.Model`) -/

/-- The capability limits the thinking-budget clamp reads. -/
structure ModelSupports where
  minThinkingBudget : Int := 0
  maxThinkingBudget : Int := 0
  deriving Repr, DecidableEq

/-- Model capabilities (the part the translation core reads). -/
structure ModelCapabilities where
  supports : ModelSupports := {}
  deriving Repr, DecidableEq

/-- A cached upstream model descriptor. -/
structure Model where
  id : String := ""
  supportedEndpoints : List String := []
  capabilities : ModelCapabilities := {}
  deriving Repr, DecidableEq

/-- The model registry lookup `state.Global.FindModel`, abstracted as a
function from model id to optional descriptor. -/
def Registry := String → Option Model

/-! ## Thinking-budget clamp (`translate_chat.go`) -/

/-- `clampThinkingBudget`: clamp the requested budget to the model's
declared bounds.  The lower bound is the descriptor's
`min_thinking_budget` whenever that is positive (otherwise 1024); the
upper bound starts at `maxTokens - 1` and is lowered to the descriptor's
`max_thinking_budget` when that is positive and smaller. -/
def clampThinkingBudget (reg : Registry) (modelID : String)
    (budget maxTokens : Int) : Int :=
  let minBudget : Int :=
    match reg modelID with
    | some m =>
        if 0 < m.capabilities.supports.minThinkingBudget then
          m.capabilities.supports.minThinkingBudget
        else 1024
    | none => 1024
  let maxBudget : Int :=
    match reg modelID with
    | some m =>
        if 0 < m.capabilities.supports.maxThinkingBudget ∧
            m.capabilities.supports.maxThinkingBudget < maxTokens - 1 then
          m.capabilities.supports.maxThinkingBudget
        else maxTokens - 1
    | none => maxTokens - 1
  let budget := if budget < minBudget then minBudget else budget
  let budget := if maxBudget < budget then maxBudget else budget
  budget

/-! ## A small JSON syntax classifier

`parseToolInput` needs to know whether a `function_call.arguments`
string is valid JSON and whether its top-level value is an array.  The
source uses `encoding/json`; the embedding implements a standalone
recursive-descent validity check over the character list (fuelled by the
remaining length). -/

/-- Top-level kind of a JSON value. -/
inductive JsonKind where
  | obj | arr | str | num | lit
  deriving Repr, DecidableEq

/-- JSON insignificant whitespace. -/
def jsonWs (c : Char) : Bool :=
  c = ' ' ∨ c = '\t' ∨ c = '\n' ∨ c = '\r'

/-- Skip JSON whitespace. -/
def skipWs : List Char → List Char
  | [] => []
  | c :: rest => if jsonWs c then skipWs rest else c :: rest

/-- Consume a JSON string body after the opening quote.  Returns the
remainder after the closing quote, or `none` on malformed input.
Escape sequences are accepted leniently (any escaped character). -/
def jsonStringRest : List Char → Option (List Char)
  | [] => none
  | c :: rest =>
      if c = '"' then some rest
      else if c = '\\' then
        match rest with
        | [] => none
        | _ :: rest2 => jsonStringRest rest2
      else jsonStringRest rest

/-- Characters allowed in a (leniently parsed) JSON number token. -/
def jsonNumChar (c : Char) : Bool :=
  c.isDigit ∨ c = '-' ∨ c = '+' ∨ c = '.' ∨ c = 'e' ∨ c = 'E'

mutual

/-- Consume one JSON value; returns its kind and the remainder. -/
def jsonValue (fuel : Nat) (cs : List Char) : Option (JsonKind × List Char) :=
  match fuel with
  | 0 => none
  | fuel + 1 =>
      match skipWs cs with
      | [] => none
      | c :: rest =>
          if c = '"' then (jsonStringRest rest).map (fun r => (.str, r))
          else if c = '[' then
            (jsonElems fuel (skipWs rest) true).map (fun r => (.arr, r))
          else if c = '\x7b' then
            (jsonMembers fuel (skipWs rest) true).map (fun r => (.obj, r))
          else if c = 't' ∧ rest.take 3 = ['r', 'u', 'e'] then
            some (.lit, rest.drop 3)
          else if c = 'f' ∧ rest.take 4 = ['a', 'l', 's', 'e'] then
            some (.lit, rest.drop 4)
          else if c = 'n' ∧ rest.take 3 = ['u', 'l', 'l'] then
            some (.lit, rest.drop 3)
          else if jsonNumChar c then
            some (.num, (c :: rest).dropWhile jsonNumChar)
          else none

/-- Consume the elements of an array after `[` (whitespace already
skipped); `first` is true before the first element. -/
def jsonElems (fuel : Nat) (cs : List Char) (first : Bool) :
    Option (List Char) :=
  match fuel with
  | 0 => none
  | fuel + 1 =>
      match cs with
      | [] => none
      | c :: rest =>
          if c = ']' ∧ first then some rest
          else
            match jsonValue fuel cs with
            | none => none
            | some (_, r) =>
                match skipWs r with
                | ']' :: r2 => some r2
                | ',' :: r2 => jsonElems fuel (skipWs r2) false
                | _ => none

/-- Consume the members of an object after `{` (whitespace already
skipped). -/
def jsonMembers (fuel : Nat) (cs : List Char) (first : Bool) :
    Option (List Char) :=
  match fuel with
  | 0 => none
  | fuel + 1 =>
      match cs with
      | [] => none
      | c :: rest =>
          if c = '\x7d' ∧ first then some rest
          else if c = '"' then
            match jsonStringRest rest with
            | none => none
            | some r =>
                match skipWs r with
                | ':' :: r2 =>
                    match jsonValue fuel (skipWs r2) with
                    | none => none
                    | some (_, r3) =>
                        match skipWs r3 with
                        | '\x7d' :: r4 => some r4
                        | ',' :: r4 => jsonMembers fuel (skipWs r4) false
                        | _ => none
                | _ => none
          else none

end

/-- Classify a whole string as JSON: its top-level kind when the string
is one valid JSON value (with surrounding whitespace), else `none`. -/
def jsonClassify (s : String) : Option JsonKind :=
  match jsonValue (s.data.length + 1) s.data with
  | some (k, rest) => if skipWs rest = [] then some k else none
  | none => none

/-- Minimal JSON string quoting (used to model `json.Marshal` of a Go
string in the `raw_arguments` fallback). -/
def jsonQuote (s : String) : String :=
  "\"" ++ String.mk (s.data.flatMap (fun c =>
    if c = '"' then ['\\', '"']
    else if c = '\\' then ['\\', '\\']
    else if c = '\n' then ['\\', 'n']
    else if c = '\r' then ['\\', 'r']
    else if c = '\t' then ['\\', 't']
    else [c])) ++ "\""

/-- `parseToolInput`: parse `function_call.arguments` with fallbacks —
empty string becomes `{}`, invalid JSON is wrapped as
`{"raw_arguments": …}`, a JSON array is wrapped as `{"arguments": …}`,
and anything else passes through verbatim. -/
def parseToolInput (args : String) : String :=
  if args = "" then "\x7b\x7d"
  else
    match jsonClassify args with
    | none => "\x7b\"raw_arguments\":" ++ jsonQuote args ++ "\x7d"
    | some .arr => "\x7b\"arguments\":" ++ args ++ "\x7d"
    | some _ => args

/-! ## Responses API result types (`types_responses.go`) -/

/-- One `{type, text}` entry of a `summary[]` array. -/
structure SummaryItem where
  type : String := ""
  text : String := ""
  deriving Repr, DecidableEq

/-- One entry of a Responses `message.content` array. -/
structure OutputContent where
  type : String := ""
  text : String := ""
  deriving Repr, DecidableEq

/-- One entry of a Responses result `output[]` array. -/
structure ResponsesOutput where
  type : String := ""
  id : String := ""
  status : String := ""
  role : String := ""
  content : List OutputContent := []
  callId : String := ""
  name : String := ""
  arguments : String := ""
  encryptedContent : String := ""
  summary : List SummaryItem := []
  deriving Repr, DecidableEq

/-- `input_tokens_details` of a Responses usage block. -/
structure InputTokensDetails where
  cachedTokens : Int := 0
  deriving Repr, DecidableEq

/-- Responses usage block. -/
structure ResponsesUsage where
  inputTokens : Int := 0
  outputTokens : Int := 0
  inputTokensDetails : Option InputTokensDetails := none
  deriving Repr, DecidableEq

/-- `incomplete_details` of a Responses result. -/
structure IncompleteDetail where
  reason : String := ""
  deriving Repr, DecidableEq

/-- A non-streaming Responses API result. -/
structure ResponsesResult where
  id : String := ""
  object : String := ""
  model : String := ""
  output : List ResponsesOutput := []
  outputText : String := ""
  status : String := ""
  usage : Option ResponsesUsage := none
  incompleteDetails : Option IncompleteDetail := none
  deriving Repr, DecidableEq

/-! ## Reasoning-signature encoding (`translate_responses.go`) -/

/-- The signature a `reasoning` output item is encoded into: empty when
`encrypted_content` is empty, otherwise `encrypted_content`, extended
with `"@" ++ id` when the id is non-empty. -/
def reasoningSignature (encryptedContent id : String) : String :=
  if encryptedContent ≠ "" then
    if id ≠ "" then encryptedContent ++ "@" ++ id else encryptedContent
  else ""

/-- The decode direction used when a thinking block is sent back to the
Responses API: `strings.SplitN(signature, "@", 2)` giving
`(encrypted_content, id)`.  Only called when the signature contains an
`'@'`, in which case the split yields both parts. -/
def signatureSplit (sig : String) : String × String :=
  match splitFirstAmp sig.data with
  | (l, some r) => (String.mk l, String.mk r)
  | (l, none) => (String.mk l, "")

/-- The `thinking` text derived from a reasoning item's summaries:
newline-joined summary texts, or the `"Thinking..."` placeholder when
there are none. -/
def reasoningThinkingText (summary : List SummaryItem) : String :=
  if summary.length > 0 then
    String.intercalate "\n" (summary.map (·.text))
  else "Thinking..."

/-! ## Responses result → Anthropic (`translateResponsesResultToAnthropic`) -/

/-- The blocks produced by walking `output[]`: `reasoning` becomes a
thinking block, `function_call` a tool_use block, and each non-empty
`output_text` entry of a `message` a text block. -/
def walkResponsesOutput (output : List ResponsesOutput) : List ContentBlock :=
  output.foldl
    (fun content item =>
      if item.type = "reasoning" then
        content ++ [{ type := "thinking",
                      thinking := reasoningThinkingText item.summary,
                      signature := reasoningSignature item.encryptedContent item.id }]
      else if item.type = "function_call" then
        content ++ [{ type := "tool_use", id := item.callId, name := item.name,
                      input := some (parseToolInput item.arguments) }]
      else if item.type = "message" then
        content ++ (item.content.filter
            (fun c => c.type = "output_text" ∧ c.text ≠ "")).map
          (fun c => { type := "text", text := c.text })
      else content)
    []

/-- The stop reason of a translated Responses result. -/
def responsesStopReason (result : ResponsesResult) : String :=
  let hasFuncCall := result.output.any (fun item => item.type = "function_call")
  if result.status = "completed" ∧ hasFuncCall then "tool_use"
  else if result.status = "incomplete" then
    match result.incompleteDetails with
    | some d => if d.reason = "max_output_tokens" then "max_tokens" else "end_turn"
    | none => "end_turn"
  else "end_turn"

/-- The usage block of a translated Responses result: upstream input
tokens minus the reported cached tokens, cached tokens recorded as
`cache_read_input_tokens`. -/
def responsesUsage (usage : Option ResponsesUsage) : AnthropicUsage :=
  match usage with
  | none => {}
  | some u =>
      match u.inputTokensDetails with
      | none => { inputTokens := u.inputTokens, outputTokens := u.outputTokens }
      | some d =>
          { inputTokens := u.inputTokens - d.cachedTokens,
            outputTokens := u.outputTokens,
            cacheReadInputTokens := d.cachedTokens }

/-- `translateResponsesResultToAnthropic`: convert a Responses result to
an Anthropic response, falling back to the top-level `output_text` (and
then to a single empty text block) when walking `output[]` yields no
content. -/
def translateResponsesResultToAnthropic (result : ResponsesResult) :
    AnthropicResponse :=
  let content := walkResponsesOutput result.output
  let content :=
    if content = [] ∧ result.outputText ≠ "" then
      [{ type := "text", text := result.outputText }]
    else content
  let content :=
    if content = [] then [{ type := "text", text := "" }] else content
  { id := result.id, type := "message", role := "assistant",
    content := content, model := result.model,
    stopReason := responsesStopReason result,
    usage := responsesUsage result.usage }

/-! ## Chat Completions types (`types_chat.go`) -/

/-- An `image_url` part. -/
structure OpenAIImgURL where
  url : String := ""
  deriving Repr, DecidableEq

/-- One part of a multimodal OpenAI message content array. -/
structure OpenAIContentPart where
  type : String := ""
  text : String := ""
  imageURL : Option OpenAIImgURL := none
  deriving Repr, DecidableEq

/-- Decoded OpenAI message content (`any` in Go): unset, a string, or an
array of parts. -/
inductive OpenAIContent where
  | null : OpenAIContent
  | str (s : String) : OpenAIContent
  | parts (ps : List OpenAIContentPart) : OpenAIContent
  deriving Repr, DecidableEq

/-- A tool call inside an OpenAI assistant message. -/
structure OpenAIToolCallFunc where
  name : String := ""
  arguments : String := ""
  deriving Repr, DecidableEq

/-- A tool call of an OpenAI assistant message. -/
structure OpenAIToolCall where
  id : String := ""
  type : String := ""
  function : OpenAIToolCallFunc := {}
  deriving Repr, DecidableEq

/-- An OpenAI chat message (the proxy's outgoing shape). -/
structure OpenAIMsg where
  role : String := ""
  content : OpenAIContent := .null
  toolCalls : List OpenAIToolCall := []
  toolCallId : String := ""
  reasoningTxt : Option String := none
  reasoningOpq : Option String := none
  deriving Repr, DecidableEq

/-- An OpenAI function-tool definition.  `parameters` keeps the raw
`input_schema` JSON it was decoded from (`none` models nil). -/
structure OpenAIFunction where
  name : String := ""
  description : String := ""
  parameters : Option String := none
  deriving Repr, DecidableEq

/-- An OpenAI tool definition. -/
structure OpenAITool where
  type : String := ""
  function : OpenAIFunction := {}
  deriving Repr, DecidableEq

/-- Decoded OpenAI `tool_choice` (`any` in Go). -/
inductive OpenAIToolChoice where
  | null : OpenAIToolChoice
  | str (s : String) : OpenAIToolChoice
  | function (name : String) : OpenAIToolChoice
  deriving Repr, DecidableEq

/-- The Chat Completions request the proxy sends upstream. -/
structure ChatCompletionRequest where
  model : String := ""
  messages : List OpenAIMsg := []
  maxTokens : Option Int := none
  temperature : Option Float := none
  topP : Option Float := none
  stream : Bool := false
  tools : List OpenAITool := []
  toolChoice : OpenAIToolChoice := .null
  stop : List String := []
  deriving Repr

/-- `prompt_tokens_details` of a Chat Completions usage block. -/
structure PromptTokensDetails where
  cachedTokens : Int := 0
  deriving Repr, DecidableEq

/-- Chat Completions usage block. -/
structure ChatCompletionUsage where
  promptTokens : Int := 0
  completionTokens : Int := 0
  promptTokensDetails : Option PromptTokensDetails := none
  deriving Repr, DecidableEq

/-- The message of a non-streaming Chat Completions choice. -/
structure ChatCompletionM where
  role : String := ""
  content : Option String := none
  toolCalls : List OpenAIToolCall := []
  reasoningTxt : Option String := none
  reasoningOpq : Option String := none
  deriving Repr, DecidableEq

/-- One choice of a non-streaming Chat Completions response. -/
structure ChatCompletionChoice where
  index : Int := 0
  message : ChatCompletionM := {}
  finishReason : String := ""
  deriving Repr, DecidableEq

/-- A non-streaming Chat Completions response. -/
structure ChatCompletionResponse where
  id : String := ""
  model : String := ""
  choices : List ChatCompletionChoice := []
  usage : Option ChatCompletionUsage := none
  deriving Repr, DecidableEq

/-! ## Chat Completions response → Anthropic (`translateToAnthropic`) -/

/-- The usage block of a translated Chat Completions response: prompt
tokens minus the reported cached tokens, cached tokens recorded as
`cache_read_input_tokens`. -/
def chatUsage (usage : Option ChatCompletionUsage) : AnthropicUsage :=
  match usage with
  | none => {}
  | some u =>
      match u.promptTokensDetails with
      | none => { inputTokens := u.promptTokens, outputTokens := u.completionTokens }
      | some d =>
          { inputTokens := u.promptTokens - d.cachedTokens,
            outputTokens := u.completionTokens,
            cacheReadInputTokens := d.cachedTokens }

/-- `translateToAnthropic`: convert a non-streaming Chat Completions
response to an Anthropic response. -/
def translateToAnthropic (resp : ChatCompletionResponse) : AnthropicResponse :=
  let content : List ContentBlock :=
    match resp.choices with
    | [] => []
    | choice :: _ =>
        let msg := choice.message
        let content : List ContentBlock :=
          match msg.reasoningTxt with
          | some rt =>
              if rt ≠ "" then [{ type := "thinking", thinking := rt }]
              else
                match msg.reasoningOpq with
                | some ro =>
                    if ro ≠ "" then
                      [{ type := "thinking", thinking := "Thinking...",
                         signature := ro }]
                    else []
                | none => []
          | none =>
              match msg.reasoningOpq with
              | some ro =>
                  if ro ≠ "" then
                    [{ type := "thinking", thinking := "Thinking...",
                       signature := ro }]
                  else []
              | none => []
        let content :=
          match msg.content with
          | some c => if c ≠ "" then content ++ [{ type := "text", text := c }] else content
          | none => content
        content ++ msg.toolCalls.map (fun tc =>
          { type := "tool_use", id := tc.id, name := tc.function.name,
            input := some tc.function.arguments })
  let content :=
    if content = [] then [{ type := "text", text := "" }] else content
  let stopReason :=
    match resp.choices with
    | [] => "end_turn"
    | choice :: _ => mapStopReason choice.finishReason
  { id := resp.id, type := "message", role := "assistant",
    content := content, model := resp.model, stopReason := stopReason,
    usage := chatUsage resp.usage }

/-! ## Anthropic → Chat Completions (`translateToOpenAI`) -/

/-- The fixed interleaved-thinking protocol appended to the system
prompt for Claude models with a positive thinking budget. -/
def interleavedThinkingPrompt : String :=
  "\n<interleaved_thinking_protocol>\nYou MUST think after receiving a tool result. After EVERY tool result, you MUST produce a thinking block before producing any other content. This is NON-NEGOTIABLE.\n</interleaved_thinking_protocol>"

/-- The reminder injected into the first user message of a
Claude-with-thinking request. -/
def interleavedThinkingReminder : String :=
  "<system-reminder>you MUST follow interleaved_thinking_protocol</system-reminder>"

/-- `buildUserContent`: OpenAI content from the non-tool-result blocks
of a user message — a newline-joined string when no images are present,
else an array of text / image_url parts. -/
def buildUserContent (blocks : List ContentBlock) (addReminder : Bool) :
    OpenAIContent :=
  let hasImages := blocks.any (fun b => b.type = "image")
  if ¬ hasImages then
    let parts := (if addReminder then [interleavedThinkingReminder] else []) ++
      (blocks.filter (fun b => b.type = "text" ∧ b.text ≠ "")).map (·.text)
    .str (String.intercalate "\n" parts)
  else
    let reminderParts : List OpenAIContentPart :=
      if addReminder then [{ type := "text", text := interleavedThinkingReminder }]
      else []
    .parts (reminderParts ++ blocks.foldl
      (fun parts b =>
        if b.type = "text" then
          parts ++ [{ type := "text", text := b.text }]
        else if b.type = "image" then
          match b.source with
          | some src =>
              parts ++ [{ type := "image_url",
                          imageURL := some { url := "data:" ++ src.mediaType ++
                            ";base64," ++ src.data } }]
          | none => parts
        else parts)
      [])

/-- `translateUserMessage`: tool results become separate `tool`-role
messages; the remaining blocks become one user message (or a bare
reminder message when only tool results are present and the reminder is
due). -/
def translateUserMessage (blocks : List ContentBlock)
    (addThinkingReminder : Bool) : List OpenAIMsg :=
  let toolResults := blocks.filter (fun b => b.type = "tool_result")
  let otherBlocks := blocks.filter (fun b => ¬ b.type = "tool_result")
  let msgs := toolResults.map (fun tr =>
    { role := "tool", content := .str (getToolResultText tr.content),
      toolCallId := tr.toolUseId })
  if otherBlocks.length > 0 then
    msgs ++ [{ role := "user",
               content := buildUserContent otherBlocks addThinkingReminder }]
  else if addThinkingReminder ∧ toolResults.length > 0 then
    msgs ++ [{ role := "user", content := .str interleavedThinkingReminder }]
  else msgs

/-- `translateAssistantMessage`: collect text (concatenated with no
separator), tool calls, and a promoted thinking block; Claude thinking
blocks that are empty, placeholders, or carry an `'@'` in the signature
are dropped before promotion. -/
def translateAssistantMessage (blocks : List ContentBlock)
    (isClaudeModel : Bool) : List OpenAIMsg :=
  let step := fun (acc : List String × List OpenAIToolCall × Option String × Option String)
      (b : ContentBlock) =>
    let (textParts, toolCalls, rTxt, rOpq) := acc
    if b.type = "text" then (textParts ++ [b.text], toolCalls, rTxt, rOpq)
    else if b.type = "tool_use" then
      let argsStr := match b.input with | some s => s | none => "\x7b\x7d"
      (textParts,
       toolCalls ++ [{ id := b.id, type := "function",
                       function := { name := b.name, arguments := argsStr } }],
       rTxt, rOpq)
    else if b.type = "thinking" then
      if isClaudeModel ∧
          (b.thinking = "" ∨ b.thinking = "Thinking..." ∨ containsAmp b.signature) then
        acc
      else
        (textParts, toolCalls,
         (if b.thinking ≠ "" then some b.thinking else rTxt),
         (if b.signature ≠ "" then some b.signature else rOpq))
    else acc
  let (textParts, toolCalls, rTxt, rOpq) := blocks.foldl step ([], [], none, none)
  [{ role := "assistant",
     content := if textParts.length > 0 then .str (String.join textParts) else .null,
     toolCalls := toolCalls, reasoningTxt := rTxt, reasoningOpq := rOpq }]

/-- `translateTools`: Anthropic tool definitions become OpenAI function
tools with `input_schema` carried over as `parameters`. -/
def translateTools (tools : List AnthropicTool) : List OpenAITool :=
  tools.map (fun t =>
    { type := "function",
      function := { name := t.name, description := t.description,
                    parameters := t.inputSchema } })

/-- `translateToolChoice`: Anthropic `tool_choice` → OpenAI. -/
def translateToolChoice (tc : Option ToolChoice) : OpenAIToolChoice :=
  match tc with
  | none => .null
  | some tc =>
      if tc.type = "auto" then .str "auto"
      else if tc.type = "any" then .str "required"
      else if tc.type = "none" then .str "none"
      else if tc.type = "tool" then .function tc.name
      else .null

/-- `translateToOpenAI`: convert an Anthropic request to an OpenAI Chat
Completions payload.  The registry is passed explicitly (the source
reads the process-global model registry inside `clampThinkingBudget`). -/
def translateToOpenAI (reg : Registry) (req : AnthropicRequest)
    (extraPrompt : String) : ChatCompletionRequest :=
  let model := normalizeModelName req.model
  let isClaudeModel := isClaude model
  let systemText := ParseSystemPrompt req.system
  let systemText :=
    if extraPrompt ≠ "" then
      if systemText ≠ "" then systemText ++ "\n\n" ++ extraPrompt else extraPrompt
    else systemText
  let thinkingOn :=
    match req.thinking with
    | some t => 0 < t.budgetTokens
    | none => false
  let systemText :=
    if isClaudeModel && thinkingOn then systemText ++ interleavedThinkingPrompt
    else systemText
  let sysMsgs : List OpenAIMsg :=
    if systemText ≠ "" then [{ role := "system", content := .str systemText }]
    else []
  let needThinkingReminder := isClaudeModel && thinkingOn
  let bodyMsgs :=
    (req.messages.foldl
      (fun (acc : List OpenAIMsg × Bool) msg =>
        let (msgs, firstUserSeen) := acc
        let blocks := ParseMessageContent msg.content
        if msg.role = "user" then
          (msgs ++ translateUserMessage blocks
            (needThinkingReminder && !firstUserSeen), true)
        else if msg.role = "assistant" then
          (msgs ++ translateAssistantMessage blocks isClaudeModel, firstUserSeen)
        else (msgs, firstUserSeen))
      ([], false)).1
  let maxTokens :=
    match req.thinking with
    | some t =>
        if 0 < t.budgetTokens then
          clampThinkingBudget reg req.model t.budgetTokens req.maxTokens
        else req.maxTokens
    | none => req.maxTokens
  { model := model, messages := sysMsgs ++ bodyMsgs,
    maxTokens := some maxTokens, stream := req.stream,
    temperature := req.temperature, topP := req.topP,
    stop := req.stopSequences,
    tools := if req.tools.length > 0 then translateTools req.tools else [],
    toolChoice := translateToolChoice req.toolChoice }

/-! ## Token estimation (`count_tokens.go`) -/

/-- `countStringTokens`: the `chars/4` heuristic, on the byte length
(Go `len` of a string counts bytes). -/
def countStringTokens (s : String) : Int :=
  if s = "" then 0 else ((s.utf8ByteSize : Int) + 3) / 4

/-- `countContentTokens`: tokens of a message content value.  String
content is counted directly; part arrays count their non-empty texts;
unset content counts zero.  (The source's generic-JSON fallback branches
are unreachable for the contents this proxy constructs.) -/
def countContentTokens : OpenAIContent → Int
  | .null => 0
  | .str s => countStringTokens s
  | .parts ps =>
      ps.foldl (fun total p =>
        total + (if p.text ≠ "" then countStringTokens p.text else 0)) 0

/-- `countImageTokens`: 85 tokens per `image_url` part; non-array
content counts zero. -/
def countImageTokens : OpenAIContent → Int
  | .parts ps =>
      ps.foldl (fun count p =>
        count + (if p.type = "image_url" then 85 else 0)) 0
  | _ => 0

/-- `isToolOnlyBeta`: the beta header mentions MCP-only or Skill-only
tools. -/
def isToolOnlyBeta (beta : String) : Bool :=
  containsSubstr beta "mcp-only" || containsSubstr beta "skill-only"

/-- Models `math.Round(float64(total) * 1.15)` with exact rational
arithmetic: `(23 * total + 10) / 20` rounds `23t/20` half-away-from-zero
for the non-negative totals this estimator produces.  (The binary
float64 product can differ by one on exact-half boundaries; no claim
depends on the exact inflated value.) -/
def claudeInflate (total : Int) : Int :=
  (23 * total + 10) / 20

/-- `estimateTokens`: heuristic token count of a translated Chat
Completions request.  The unused `*state.Model` parameter of the source
is omitted. -/
def estimateTokens (req : ChatCompletionRequest) (modelID betaHeader : String) :
    Int :=
  let total := req.messages.foldl
    (fun total msg =>
      let total := total + 4 + countContentTokens msg.content
      let total :=
        if msg.toolCallId ≠ "" then total + countStringTokens msg.toolCallId
        else total
      let total := msg.toolCalls.foldl
        (fun total tc =>
          total + countStringTokens tc.function.name +
            countStringTokens tc.function.arguments + 3)
        total
      match msg.reasoningTxt with
      | some rt => total + countStringTokens rt
      | none => total)
    0
  let total :=
    if req.tools.length > 0 then
      let total := req.tools.foldl
        (fun total tool =>
          let total := total + countStringTokens tool.function.name +
            countStringTokens tool.function.description
          let total :=
            match tool.function.parameters with
            | some paramJSON => total + countStringTokens paramJSON
            | none => total
          total + 5)
        total
      if isClaude modelID then
        if ¬ isToolOnlyBeta betaHeader then total + 346 else total
      else if containsSubstr modelID.toLower "grok" then total + 120
      else total
    else total
  let total := req.messages.foldl
    (fun total msg => total + countImageTokens msg.content) total
  let total := if isClaude modelID then claudeInflate total else total
  if total < 1 then 1 else total

/-- `CountTokens` (`POST /v1/messages/count_tokens`): the body of the
always-200 JSON reply.  `none` models a request body that failed to
decode.  The Go translation step `translateToOpenAI` has no failure
path (it always returns a nil error), so its fallback branch is
unreachable and the translated request is counted directly. -/
def CountTokensBody (reg : Registry) (req : Option AnthropicRequest)
    (betaHeader : String) : Int :=
  match req with
  | none => 1
  | some req =>
      let ccReq := translateToOpenAI reg req ""
      estimateTokens ccReq req.model betaHeader

/-! ## Request normalizer (`messages_utils.go`): tool-result/text merge -/

/-- The fixed system-prompt marker of a compact (conversation-summary)
request; the source names it `compactPrefix`. -/
def compactMarker : String :=
  "You are a helpful AI assistant tasked with summarizing conversations"

/-- `isCompactRequest`: the flattened system prompt starts with the
compact marker. -/
def isCompactRequest (req : AnthropicRequest) : Bool :=
  (ParseSystemPrompt req.system).startsWith compactMarker

/-- `mergeTextIntoToolResult`: append text to a `tool_result`'s content —
nil content becomes the text itself, an array of blocks gets a text
block appended, and string (or other raw) content is concatenated with
`"\n\n"` when the existing text is non-empty. -/
def mergeTextIntoToolResult (tr : ContentBlock) (text : String) : ContentBlock :=
  match tr.content with
  | .null => { tr with content := .str text }
  | .blocks bs => { tr with content := .blocks (bs ++ [{ type := "text", text := text }]) }
  | c =>
      let existing := getToolResultText c
      let text := if existing ≠ "" then existing ++ "\n\n" ++ text else text
      { tr with content := .str text }

/-- The classification loop of `mergeToolResultBlocks`: positions of the
`tool_result` and `text` blocks (in order) and whether every block was
one of those two kinds. -/
def classifyBlocks : List ContentBlock → List Nat × List Nat × Bool
  | [] => ([], [], true)
  | b :: rest =>
      let (trs, txs, valid) := classifyBlocks rest
      let trs := trs.map (· + 1)
      let txs := txs.map (· + 1)
      if b.type = "tool_result" then (0 :: trs, txs, valid)
      else if b.type = "text" then (trs, 0 :: txs, valid)
      else (trs, txs, false)

/-- Replace the element at an index (identity when out of range). -/
def modifyAt (f : ContentBlock → ContentBlock) :
    List ContentBlock → Nat → List ContentBlock
  | [], _ => []
  | b :: rest, 0 => f b :: rest
  | b :: rest, i + 1 => b :: modifyAt f rest i

/-- Apply a batch of `(index, text)` merges: each merges the text into
the tool_result at that index, as the source's pairwise loop does. -/
def applyMerges (blocks : List ContentBlock) (upds : List (Nat × String)) :
    List ContentBlock :=
  upds.foldl (fun acc p => modifyAt (mergeTextIntoToolResult · p.2) acc p.1) blocks

/-- The text at a position of the block list (the source reads
`blocks[txi].Text`). -/
def textAt (blocks : List ContentBlock) (i : Nat) : String :=
  match blocks.get? i with
  | some b => b.text
  | none => ""

/-- The per-message body of `mergeToolResultBlocks`: classify, merge
pairwise (equal counts) or all-into-last, then drop the text blocks.
Messages that are skipped (a non-`tool_result`/`text` block present, or
no tool_result, or no text) are returned unchanged, as is a message
whose filtered result would be empty. -/
def mergeMsgBlocks (blocks : List ContentBlock) : List ContentBlock :=
  let (trs, txs, valid) := classifyBlocks blocks
  if ¬ valid ∨ trs.length = 0 ∨ txs.length = 0 then blocks
  else
    let blocks' :=
      if trs.length = txs.length then
        applyMerges blocks (trs.zip (txs.map (textAt blocks)))
      else
        let allText := (txs.map (textAt blocks)).filter (· ≠ "")
        if allText.length > 0 then
          applyMerges blocks
            [(trs.getLastD 0, String.intercalate "\n" allText)]
        else blocks
    let filtered := blocks'.filter (fun b => ¬ b.type = "text")
    if filtered.length > 0 then filtered else blocks

/-- `mergeToolResultBlocks`: run the merge over every user message of a
non-compact request (compact requests are skipped entirely). -/
def mergeToolResultBlocks (req : AnthropicRequest) : AnthropicRequest :=
  if isCompactRequest req then req
  else
    { req with
      messages := req.messages.map (fun m =>
        if m.role = "user" then
          let blocks := ParseMessageContent m.content
          let blocks' := mergeMsgBlocks blocks
          if blocks' = blocks then m
          else { m with content := .blocks blocks' }
        else m) }

/-! ## Anthropic SSE event vocabulary (`stream_state.go`) -/

/-- A streamed content-block delta (`Delta` in the source): the type tag
plus the payload field that tag uses. -/
structure StreamDelta where
  type : String := ""
  text : String := ""
  pjson : String := ""
  thinking : String := ""
  signature : String := ""
  deriving Repr, DecidableEq

/-- One Anthropic SSE event, as the typed union of the event payloads
the source emits (`SSEEvent` with its concrete `Data` structs). -/
inductive AnthEvent where
  | messageStart (message : AnthropicResponse) : AnthEvent
  | contentBlockStart (index : Int) (block : ContentBlock) : AnthEvent
  | contentBlockDelta (index : Int) (delta : StreamDelta) : AnthEvent
  | contentBlockStop (index : Int) : AnthEvent
  | messageDelta (stopReason : String) (outputTokens : Int) : AnthEvent
  | messageStop : AnthEvent
  | errorEvent (errType message : String) : AnthEvent
  deriving Repr, DecidableEq

/-! ## Chat Completions → Anthropic stream machine (`stream_state.go`) -/

/-- Delta of a streamed Chat Completions tool call. -/
structure ToolCallFuncDelta where
  name : String := ""
  arguments : String := ""
  deriving Repr, DecidableEq

/-- One entry of a chunk's `tool_calls[]`. -/
structure ToolCallDelta where
  index : Int := 0
  id : String := ""
  type : String := ""
  function : Option ToolCallFuncDelta := none
  deriving Repr, DecidableEq

/-- The delta of a streamed chunk choice. -/
structure ChunkDelta where
  content : Option String := none
  toolCalls : List ToolCallDelta := []
  reasoningTxt : Option String := none
  reasoningOpq : Option String := none
  deriving Repr, DecidableEq

/-- One choice of a streamed chunk. -/
structure ChunkChoice where
  delta : ChunkDelta := {}
  finishReason : Option String := none
  deriving Repr, DecidableEq

/-- A streamed Chat Completions chunk. -/
structure ChatCompletionChunk where
  id : String := ""
  model : String := ""
  choices : List ChunkChoice := []
  usage : Option ChatCompletionUsage := none
  deriving Repr, DecidableEq

/-- `AnthropicStreamState`: the per-request scratchpad of the Chat
Completions → Anthropic translation. -/
structure CState where
  blockIndex : Int := -1
  openBlockType : String := ""
  toolCallMap : List (Int × Int) := []
  hasStarted : Bool := false
  model : String := ""
  inputTokens : Int := 0
  outputTokens : Int := 0
  cachedTokens : Int := 0
  isClaudeModel : Bool := false
  deriving Repr, DecidableEq

/-- `NewAnthropicStreamState`. -/
def mkCState (model : String) : CState :=
  { model := model, isClaudeModel := isClaude model }

/-- `closeCurrentBlock` of the chat machine. -/
def cClose (s : CState) : CState × List AnthEvent :=
  if s.openBlockType = "" then (s, [])
  else ({ s with openBlockType := "" }, [.contentBlockStop s.blockIndex])

/-- `openThinkingBlock`. -/
def cOpenThinking (s : CState) : CState × List AnthEvent :=
  if s.openBlockType ≠ "" then (s, [])
  else
    let s := { s with blockIndex := s.blockIndex + 1, openBlockType := "thinking" }
    (s, [.contentBlockStart s.blockIndex { type := "thinking", thinking := "" }])

/-- `openTextBlock`. -/
def cOpenText (s : CState) : CState × List AnthEvent :=
  if s.openBlockType ≠ "" then (s, [])
  else
    let s := { s with blockIndex := s.blockIndex + 1, openBlockType := "text" }
    (s, [.contentBlockStart s.blockIndex { type := "text", text := "" }])

/-- The `message_start` usage seeded from the first chunk's usage
(prompt tokens minus reported cached tokens). -/
def chatSeedUsage (usage : Option ChatCompletionUsage) : AnthropicUsage :=
  match usage with
  | none => {}
  | some u =>
      match u.promptTokensDetails with
      | none => { inputTokens := u.promptTokens }
      | some d =>
          { inputTokens := u.promptTokens - d.cachedTokens,
            cacheReadInputTokens := d.cachedTokens }

/-- First-chunk handling: emit `message_start` and record the seeded
token counts. -/
def cStart (s : CState) (chunk : ChatCompletionChunk) : CState × List AnthEvent :=
  if s.hasStarted then (s, [])
  else
    let usage := chatSeedUsage chunk.usage
    let s := { s with hasStarted := true,
                      inputTokens := (if chunk.usage.isSome then usage.inputTokens else s.inputTokens),
                      cachedTokens := (if chunk.usage.isSome then usage.cacheReadInputTokens else s.cachedTokens) }
    (s, [.messageStart { id := chunk.id, type := "message", role := "assistant",
                         model := chunk.model, usage := usage }])

/-- Handling of a non-empty `reasoning_text` (the non-reroute path):
open a thinking block if needed and emit a `thinking_delta`. -/
def cPhaseReasoningTxt (s : CState) (d : ChunkDelta) : CState × List AnthEvent :=
  match d.reasoningTxt with
  | some rt =>
      if rt ≠ "" then
        let p :=
          if s.openBlockType ≠ "thinking" then
            let p1 := cClose s
            let p2 := cOpenThinking p1.1
            (p2.1, p1.2 ++ p2.2)
          else (s, [])
        (p.1, p.2 ++ [.contentBlockDelta p.1.blockIndex
          { type := "thinking_delta", thinking := rt }])
      else (s, [])
  | none => (s, [])

/-- Handling of a non-empty `reasoning_opaque`: a signature for the open
thinking block, or a self-contained placeholder thinking block. -/
def cPhaseReasoningOpq (s : CState) (d : ChunkDelta) : CState × List AnthEvent :=
  match d.reasoningOpq with
  | some opq =>
      if opq ≠ "" then
        if s.openBlockType = "thinking" then
          let es := [AnthEvent.contentBlockDelta s.blockIndex
            { type := "signature_delta", signature := opq }]
          let p := cClose s
          (p.1, es ++ p.2)
        else if d.content = some "" ∧ s.openBlockType = "thinking" then
          -- unreachable else-if branch kept from the source
          let es := [AnthEvent.contentBlockDelta s.blockIndex
            { type := "signature_delta", signature := opq }]
          let p := cClose s
          (p.1, es ++ p.2)
        else
          let p1 := cClose s
          let p2 := cOpenThinking p1.1
          let es := p1.2 ++ p2.2 ++
            [AnthEvent.contentBlockDelta p2.1.blockIndex
              { type := "thinking_delta", thinking := "Thinking..." },
             AnthEvent.contentBlockDelta p2.1.blockIndex
              { type := "signature_delta", signature := opq }]
          let p3 := cClose p2.1
          (p3.1, es ++ p3.2)
      else (s, [])
  | none => (s, [])

/-- Handling of non-empty text content. -/
def cPhaseContent (s : CState) (d : ChunkDelta) : CState × List AnthEvent :=
  match d.content with
  | some c =>
      if c ≠ "" then
        let p1 :=
          if s.openBlockType = "thinking" then
            let es := [AnthEvent.contentBlockDelta s.blockIndex
              { type := "signature_delta", signature := "" }]
            let p := cClose s
            (p.1, es ++ p.2)
          else (s, [])
        let p2 :=
          if p1.1.openBlockType ≠ "text" then
            let pc := cClose p1.1
            let po := cOpenText pc.1
            (po.1, pc.2 ++ po.2)
          else (p1.1, [])
        (p2.1, p1.2 ++ p2.2 ++ [.contentBlockDelta p2.1.blockIndex
          { type := "text_delta", text := c }])
      else (s, [])
  | none => (s, [])

/-- One entry of the `tool_calls[]` loop. -/
def cToolCallStep (s : CState) (tc : ToolCallDelta) : CState × List AnthEvent :=
  let t : CState × Int × List AnthEvent :=
    match s.toolCallMap.lookup tc.index with
    | some b => (s, b, ([] : List AnthEvent))
    | none =>
        let pc := cClose s
        let s1 := { pc.1 with blockIndex := pc.1.blockIndex + 1 }
        let blockIdx := s1.blockIndex
        let s2 := { s1 with toolCallMap := (tc.index, blockIdx) :: s1.toolCallMap,
                            openBlockType := "tool_use" }
        let name := match tc.function with | some f => f.name | none => ""
        (s2, blockIdx, pc.2 ++ [AnthEvent.contentBlockStart blockIdx
          { type := "tool_use", id := tc.id, name := name }])
  let e2 :=
    match tc.function with
    | some f =>
        if f.arguments ≠ "" then
          [AnthEvent.contentBlockDelta t.2.1
            { type := "input_json_delta", pjson := f.arguments }]
        else []
    | none => []
  (t.1, t.2.2 ++ e2)

/-- The `tool_calls[]` loop. -/
def cPhaseToolCalls (s : CState) (tcs : List ToolCallDelta) :
    CState × List AnthEvent :=
  tcs.foldl
    (fun acc tc =>
      let p := cToolCallStep acc.1 tc
      (p.1, acc.2 ++ p.2))
    (s, [])

/-- Handling of `finish_reason`: close the open block, record final
output tokens, emit `message_delta` and `message_stop`. -/
def cPhaseFinish (s : CState) (chunk : ChatCompletionChunk)
    (choice : ChunkChoice) : CState × List AnthEvent :=
  match choice.finishReason with
  | some reason =>
      let p := cClose s
      let stopReason := mapStopReason reason
      let s1 :=
        match chunk.usage with
        | some u => { p.1 with outputTokens := u.completionTokens }
        | none => p.1
      (s1, p.2 ++ [.messageDelta stopReason s1.outputTokens, .messageStop])
  | none => (s, [])

/-- `TranslateChunk`: translate one streamed Chat Completions chunk into
Anthropic SSE events. -/
def cStep (s : CState) (chunk : ChatCompletionChunk) : CState × List AnthEvent :=
  let p0 := cStart s chunk
  let s := p0.1
  let pre := p0.2
  match chunk.choices with
  | [] =>
      let s :=
        match chunk.usage with
        | some u => { s with outputTokens := u.completionTokens }
        | none => s
      (s, pre)
  | choice :: _ =>
      let d := choice.delta
      -- documented Copilot workaround: reasoning_text while a text block
      -- is open on a Claude model is rerouted into the text block and the
      -- rest of the chunk is skipped
      let reroute :=
        match d.reasoningTxt with
        | some rt => rt != "" && s.openBlockType == "text" && s.isClaudeModel
        | none => false
      if reroute then
        let rt := match d.reasoningTxt with | some rt => rt | none => ""
        (s, pre ++ [.contentBlockDelta s.blockIndex
          { type := "text_delta", text := rt }])
      else
        let p1 := cPhaseReasoningTxt s d
        let p2 := cPhaseReasoningOpq p1.1 d
        let p3 := cPhaseContent p2.1 d
        let p4 := cPhaseToolCalls p3.1 d.toolCalls
        let p5 := cPhaseFinish p4.1 chunk choice
        (p5.1, pre ++ p1.2 ++ p2.2 ++ p3.2 ++ p4.2 ++ p5.2)

/-- Run the chat machine over a chunk list, concatenating outputs. -/
def cRun (s : CState) : List ChatCompletionChunk → CState × List AnthEvent
  | [] => (s, [])
  | chunk :: rest =>
      let p1 := cStep s chunk
      let p2 := cRun p1.1 rest
      (p2.1, p1.2 ++ p2.2)

/-! ## Responses → Anthropic stream machine (`responses_stream_state.go`) -/

/-- The decoded `item` of a `response.output_item.added` event (the
source reads only these fields there). -/
structure AddedItem where
  type : String := ""
  callId : String := ""
  name : String := ""
  id : String := ""
  deriving Repr, DecidableEq

/-- A typed upstream Responses stream event, one constructor per
`event_type` the machine distinguishes (the payload fields are the ones
the source decodes for that case); `unknown` covers every other event
type, on which the machine emits nothing. -/
inductive RespEvent where
  | created (id model : String) (usage : Option ResponsesUsage) : RespEvent
  | outputItemAdded (outputIndex : Int) (item : AddedItem) : RespEvent
  | outputItemDone (outputIndex : Int) (item : ResponsesOutput) : RespEvent
  | reasoningSummaryTextDelta (itemId : String) (outputIndex summaryIndex : Int)
      (delta : String) : RespEvent
  | reasoningSummaryTextDone (outputIndex : Int) (text : String) : RespEvent
  | outputTextDelta (outputIndex contentIndex : Int) (delta : String) : RespEvent
  | outputTextDone (outputIndex contentIndex : Int) (text : String) : RespEvent
  | functionCallArgsDelta (outputIndex : Int) (delta : String) : RespEvent
  | functionCallArgsDone (outputIndex : Int) (arguments : String) : RespEvent
  | completed (response : Option ResponsesResult) : RespEvent
  | incompleteEvt (response : Option ResponsesResult) : RespEvent
  | failed (errMessage : String) : RespEvent
  | errorEvt (message : String) : RespEvent
  | unknown : RespEvent
  deriving Repr, DecidableEq

/-- `ResponsesStreamState`. -/
structure RState where
  blockIndex : Int := -1
  openBlockType : String := ""
  toolCallBlocks : List (Int × Int) := []
  hasStarted : Bool := false
  messageCompleted : Bool := false
  model : String := ""
  wsRunLength : List (Int × Int) := []
  reasoningSummaryBlock : List (Int × Int) := []
  blockHasDelta : List (Int × Bool) := []
  textBlockByKey : List ((Int × Int) × Int) := []
  inputTokens : Int := 0
  outputTokens : Int := 0
  cachedTokens : Int := 0
  deriving Repr, DecidableEq

/-- `NewResponsesStreamState`. -/
def mkRState (model : String) : RState := { model := model }

/-- Go map read with zero-value default. -/
def lookupInt (m : List (Int × Int)) (k : Int) : Option Int := m.lookup k

/-- Go `map[int]bool` read (false when absent). -/
def lookupBool (m : List (Int × Bool)) (k : Int) : Bool :=
  (m.lookup k).getD false

/-- `closeCurrentBlock` of the Responses machine. -/
def rClose (s : RState) : RState × List AnthEvent :=
  if s.openBlockType = "" then (s, [])
  else ({ s with openBlockType := "" }, [.contentBlockStop s.blockIndex])

/-- The `message_start` usage seeded from `response.created` (input
tokens minus reported cached tokens). -/
def respSeedUsage (usage : Option ResponsesUsage) : AnthropicUsage :=
  match usage with
  | none => {}
  | some u =>
      match u.inputTokensDetails with
      | none => { inputTokens := u.inputTokens }
      | some d =>
          { inputTokens := u.inputTokens - d.cachedTokens,
            cacheReadInputTokens := d.cachedTokens }

/-- `openOrGetTextBlock`: look up the text block keyed by
`output_index:content_index`, opening a new one (closing the current
block) when absent.  Returns the block index alongside the new state and
events. -/
def rOpenOrGetTextBlock (s : RState) (outputIndex contentIndex : Int) :
    RState × Int × List AnthEvent :=
  match s.textBlockByKey.lookup (outputIndex, contentIndex) with
  | some blockIdx => (s, blockIdx, [])
  | none =>
      let pc := rClose s
      let s1 := { pc.1 with blockIndex := pc.1.blockIndex + 1 }
      let blockIdx := s1.blockIndex
      let s2 := { s1 with
        textBlockByKey := ((outputIndex, contentIndex), blockIdx) :: s1.textBlockByKey,
        openBlockType := "text" }
      (s2, blockIdx, pc.2 ++ [AnthEvent.contentBlockStart blockIdx
        { type := "text", text := "" }])

/-- The lazily-opened thinking block shared by the
`reasoning_summary_text` delta and done cases: look up the block for the
output index, opening a new one (closing the current block) when
absent. -/
def rSummaryBlock (s : RState) (outputIndex : Int) :
    RState × Int × List AnthEvent :=
  match lookupInt s.reasoningSummaryBlock outputIndex with
  | some blockIdx => (s, blockIdx, [])
  | none =>
      let pc := rClose s
      let s1 := { pc.1 with blockIndex := pc.1.blockIndex + 1 }
      let blockIdx := s1.blockIndex
      let s2 := { s1 with
        reasoningSummaryBlock := (outputIndex, blockIdx) :: s1.reasoningSummaryBlock,
        openBlockType := "thinking" }
      (s2, blockIdx, pc.2 ++ [AnthEvent.contentBlockStart blockIdx
        { type := "thinking", thinking := "" }])

/-- The whitespace scan of `response.function_call_arguments.delta`:
only `\r`, `\n` and `\t` count; every other character resets the run. -/
def wsScan (start : Int) (delta : String) : Int :=
  delta.data.foldl
    (fun wsCount c =>
      if c = '\r' ∨ c = '\n' ∨ c = '\t' then wsCount + 1 else 0)
    start

/-- The literal abort message of the infinite-whitespace defense. -/
def wsAbortMessage : String :=
  "Function call arguments contain excessive whitespace (possible infinite loop). Stream aborted."

/-- The `response.output_item.done` handling of a `reasoning` item:
close the current block, open a thinking block, emit the summary text
(or placeholder) and the encoded signature, and close again.  Items of
any other type pass through unchanged here. -/
def rDoneReasoning (s : RState) (item : ResponsesOutput) :
    RState × List AnthEvent :=
  if item.type = "reasoning" then
    let pc := rClose s
    let s1 := { pc.1 with blockIndex := pc.1.blockIndex + 1,
                          openBlockType := "thinking" }
    let thinking := reasoningThinkingText item.summary
    let sig := reasoningSignature item.encryptedContent item.id
    let es := pc.2 ++
      [AnthEvent.contentBlockStart s1.blockIndex
        { type := "thinking", thinking := "" },
       AnthEvent.contentBlockDelta s1.blockIndex
        { type := "thinking_delta", thinking := thinking }] ++
      (if sig ≠ "" then
        [AnthEvent.contentBlockDelta s1.blockIndex
          { type := "signature_delta", signature := sig }]
       else [])
    let pc2 := rClose s1
    (pc2.1, es ++ pc2.2)
  else (s, [])

/-- `TranslateEvent`: translate one upstream Responses stream event into
Anthropic SSE events. -/
def rStep (s : RState) (e : RespEvent) : RState × List AnthEvent :=
  match e with
  | .created id model usage =>
      let u := respSeedUsage usage
      let s := { s with hasStarted := true, model := model,
                        inputTokens := (if usage.isSome then u.inputTokens else s.inputTokens),
                        cachedTokens := (if usage.isSome then u.cacheReadInputTokens else s.cachedTokens) }
      (s, [.messageStart { id := id, type := "message", role := "assistant",
                           model := model, usage := u }])
  | .outputItemAdded outputIndex item =>
      if item.type = "function_call" then
        let pc := rClose s
        let s1 := { pc.1 with blockIndex := pc.1.blockIndex + 1 }
        let s2 := { s1 with
          toolCallBlocks := (outputIndex, s1.blockIndex) :: s1.toolCallBlocks,
          openBlockType := "tool_use",
          wsRunLength := (outputIndex, 0) :: s1.wsRunLength }
        (s2, pc.2 ++ [AnthEvent.contentBlockStart s1.blockIndex
          { type := "tool_use", id := item.callId, name := item.name }])
      else (s, [])
  | .outputItemDone outputIndex item =>
      let pr := rDoneReasoning s item
      let s := pr.1
      let es := pr.2
      if item.type = "function_call" then
        match lookupInt s.toolCallBlocks outputIndex with
        | some blockIdx =>
            if s.openBlockType = "tool_use" ∧ s.blockIndex = blockIdx then
              let pc := rClose s
              (pc.1, es ++ pc.2)
            else (s, es)
        | none => (s, es)
      else (s, es)
  | .reasoningSummaryTextDelta _ outputIndex _ delta =>
      let t := rSummaryBlock s outputIndex
      let s1 := { t.1 with blockHasDelta := (t.2.1, true) :: t.1.blockHasDelta }
      (s1, t.2.2 ++ [AnthEvent.contentBlockDelta t.2.1
        { type := "thinking_delta", thinking := delta }])
  | .reasoningSummaryTextDone outputIndex text =>
      let t := rSummaryBlock s outputIndex
      if text ≠ "" ∧ ¬ lookupBool t.1.blockHasDelta t.2.1 then
        (t.1, t.2.2 ++ [AnthEvent.contentBlockDelta t.2.1
          { type := "thinking_delta", thinking := text }])
      else (t.1, t.2.2)
  | .outputTextDelta outputIndex contentIndex delta =>
      let t := rOpenOrGetTextBlock s outputIndex contentIndex
      let s1 := { t.1 with blockHasDelta := (t.2.1, true) :: t.1.blockHasDelta }
      (s1, t.2.2 ++ [AnthEvent.contentBlockDelta t.2.1
        { type := "text_delta", text := delta }])
  | .outputTextDone outputIndex contentIndex text =>
      let t := rOpenOrGetTextBlock s outputIndex contentIndex
      if text ≠ "" ∧ ¬ lookupBool t.1.blockHasDelta t.2.1 then
        (t.1, t.2.2 ++ [AnthEvent.contentBlockDelta t.2.1
          { type := "text_delta", text := text }])
      else (t.1, t.2.2)
  | .functionCallArgsDelta outputIndex delta =>
      let wsCount := wsScan ((lookupInt s.wsRunLength outputIndex).getD 0) delta
      let s := { s with wsRunLength := (outputIndex, wsCount) :: s.wsRunLength }
      if 20 < wsCount then
        let pc := rClose s
        (pc.1, pc.2 ++ [.errorEvent "api_error" wsAbortMessage])
      else
        match lookupInt s.toolCallBlocks outputIndex with
        | some blockIdx =>
            let s := { s with blockHasDelta := (blockIdx, true) :: s.blockHasDelta }
            (s, [.contentBlockDelta blockIdx
              { type := "input_json_delta", pjson := delta }])
        | none => (s, [])
  | .functionCallArgsDone outputIndex arguments =>
      match lookupInt s.toolCallBlocks outputIndex with
      | some blockIdx =>
          if arguments ≠ "" ∧ ¬ lookupBool s.blockHasDelta blockIdx then
            (s, [.contentBlockDelta blockIdx
              { type := "input_json_delta", pjson := arguments }])
          else (s, [])
      | none => (s, [])
  | .completed response =>
      let pc := rClose { s with messageCompleted := true }
      let result := response.getD {}
      let translated := translateResponsesResultToAnthropic result
      let s1 := { pc.1 with outputTokens := translated.usage.outputTokens }
      (s1, pc.2 ++ [.messageDelta translated.stopReason translated.usage.outputTokens,
                    .messageStop])
  | .incompleteEvt response =>
      let pc := rClose { s with messageCompleted := true }
      let result := response.getD {}
      let translated := translateResponsesResultToAnthropic result
      let s1 := { pc.1 with outputTokens := translated.usage.outputTokens }
      (s1, pc.2 ++ [.messageDelta translated.stopReason translated.usage.outputTokens,
                    .messageStop])
  | .failed errMessage =>
      let pc := rClose { s with messageCompleted := true }
      let msg := if errMessage ≠ "" then errMessage else "Response failed"
      (pc.1, pc.2 ++ [.errorEvent "api_error" msg])
  | .errorEvt message =>
      let pc := rClose { s with messageCompleted := true }
      (pc.1, pc.2 ++ [.errorEvent "api_error" message])
  | .unknown => (s, [])

/-- Run the Responses machine over an event list, concatenating
outputs. -/
def rRun (s : RState) : List RespEvent → RState × List AnthEvent
  | [] => (s, [])
  | e :: rest =>
      let p1 := rStep s e
      let p2 := rRun p1.1 rest
      (p2.1, p1.2 ++ p2.2)

/-! ## Responses passthrough Stream ID Synchronizer
(`responses_stream_sync.go`, `patchItemID` variant) -/

/-- The `item` object of an `output_item.added`/`done` event as the
synchronizer reads and patches it (`none` when the event carries no
`item` object, in which case the source's in-place patch is a no-op). -/
structure SyncItem where
  id : String := ""
  deriving Repr, DecidableEq

/-- A raw Responses stream event as the synchronizer sees it: the event
type, the optional `output_index`, the `item_id` field (empty string
models an absent field, as Go's zero value does) and the optional `item`
object. -/
structure SyncEvent where
  eventType : String := ""
  outputIndex : Option Int := none
  itemId : String := ""
  item : Option SyncItem := none
  deriving Repr, DecidableEq

/-- `StreamIDSync` state: `output_index → canonical id`. -/
structure SyncState where
  canonicalIDs : List (Int × String) := []
  deriving Repr, DecidableEq

/-- `NewStreamIDSync`. -/
def mkSyncState : SyncState := {}

/-- `processAdded`: record (or synthesize, from the supplied random
base36 suffix) the canonical id for the event's output index, patching
an empty `item.id` in place. -/
def syncProcessAdded (s : SyncState) (e : SyncEvent) (suffix : String) :
    SyncState × SyncEvent :=
  let idx := e.outputIndex.getD 0
  let itemID := (e.item.map (·.id)).getD ""
  let id := if itemID = "" then "oi_" ++ toString idx ++ "_" ++ suffix else itemID
  let e' :=
    if itemID = "" then
      match e.item with
      | some _ => { e with item := some { id := id } }
      | none => e
    else e
  ({ s with canonicalIDs := (idx, id) :: s.canonicalIDs }, e')

/-- The event forwarded by `processDone` (the state is never changed
there). -/
def syncDoneEvent (s : SyncState) (e : SyncEvent) : SyncEvent :=
  let idx := e.outputIndex.getD 0
  let itemID := (e.item.map (·.id)).getD ""
  match s.canonicalIDs.lookup idx with
  | none => e
  | some canonicalID =>
      if itemID ≠ canonicalID then
        match e.item with
        | some _ => { e with item := some { id := canonicalID } }
        | none => e
      else e

/-- `processDone`: rewrite the done event's `item.id` to the recorded
canonical id when they differ. -/
def syncProcessDone (s : SyncState) (e : SyncEvent) : SyncState × SyncEvent :=
  (s, syncDoneEvent s e)

/-- The event forwarded by `patchItemID` (the state is never changed
there). -/
def syncPatchedEvent (s : SyncState) (e : SyncEvent) : SyncEvent :=
  match e.outputIndex with
  | none => e
  | some idx =>
      match s.canonicalIDs.lookup idx with
      | none => e
      | some canonicalID =>
          if canonicalID = "" then e
          else if e.itemId ≠ canonicalID then { e with itemId := canonicalID }
          else e

/-- `patchItemID`: for any other event that carries an `output_index`,
rewrite its `item_id` to the recorded canonical id when they differ
(no-op when no canonical id is recorded or it is empty). -/
def syncPatchItemID (s : SyncState) (e : SyncEvent) : SyncState × SyncEvent :=
  (s, syncPatchedEvent s e)

/-- `Process`: dispatch on the event type. -/
def syncProcess (s : SyncState) (e : SyncEvent) (suffix : String) :
    SyncState × SyncEvent :=
  if e.eventType = "response.output_item.added" then syncProcessAdded s e suffix
  else if e.eventType = "response.output_item.done" then syncProcessDone s e
  else syncPatchItemID s e

/-- Run the synchronizer over a stream, pairing each event with the
random suffix `processAdded` would use for it. -/
def syncRun (s : SyncState) : List (SyncEvent × String) → SyncState
  | [] => s
  | (e, suffix) :: rest => syncRun (syncProcess s e suffix).1 rest

/-! ## Event-stream measures

Counting functions over emitted Anthropic event lists, used to state the
block-balance invariant of the two stream machines. -/

/-- The indices of the `content_block_start` events of a stream, in
emission order. -/
def startIdxList (es : List AnthEvent) : List Int :=
  es.filterMap (fun e =>
    match e with
    | .contentBlockStart i _ => some i
    | _ => none)

/-- Number of `content_block_start` events. -/
def startsOf (es : List AnthEvent) : Nat := (startIdxList es).length

/-- Number of `content_block_stop` events. -/
def stopsOf (es : List AnthEvent) : Nat :=
  es.countP (fun e =>
    match e with
    | .contentBlockStop _ => true
    | _ => false)

/-- Whether a `message_stop` occurs. -/
def hasMessageStop (es : List AnthEvent) : Bool :=
  es.any (fun e =>
    match e with
    | .messageStop => true
    | _ => false)

/-- Whether an `error` event occurs. -/
def hasErrorEvent (es : List AnthEvent) : Bool :=
  es.any (fun e =>
    match e with
    | .errorEvent _ _ => true
    | _ => false)

/-- 1 when a block is open (`openBlockType ≠ ""`), else 0. -/
def openBit (ob : String) : Nat := if ob = "" then 0 else 1

/-- `n` consecutive integers starting at `a`. -/
def intRangeLen (a : Int) : Nat → List Int
  | 0 => []
  | n + 1 => a :: intRangeLen (a + 1) n

theorem intRangeLen_append (a : Int) (m n : Nat) :
    intRangeLen a m ++ intRangeLen (a + m) n = intRangeLen a (m + n) := by
  induction m generalizing a with
  | zero => simp [intRangeLen]
  | succ m ih =>
      simp only [intRangeLen, List.cons_append, Nat.succ_add]
      rw [show a + ((m : Nat) + 1 : Nat) = (a + 1) + (m : Nat) by push_cast; ring]
      exact congrArg (a :: ·) (ih (a + 1))

/-- The balance relation one machine step maintains: the emitted starts
carry the `n` consecutive indices following the previous `blockIndex`,
and stops balance starts up to the open-block bit. -/
def SegOK (bi : Int) (ob : String) (bi' : Int) (ob' : String)
    (es : List AnthEvent) : Prop :=
  ∃ n : Nat, bi' = bi + n ∧ startIdxList es = intRangeLen (bi + 1) n ∧
    stopsOf es + openBit ob' = n + openBit ob

theorem SegOK.comp {b : Int} {o : String} {b1 : Int} {o1 : String}
    {b2 : Int} {o2 : String} {e1 e2 : List AnthEvent}
    (h1 : SegOK b o b1 o1 e1) (h2 : SegOK b1 o1 b2 o2 e2) :
    SegOK b o b2 o2 (e1 ++ e2) := by
  obtain ⟨n1, hb1, hs1, hc1⟩ := h1
  obtain ⟨n2, hb2, hs2, hc2⟩ := h2
  refine ⟨n1 + n2, by omega, ?_, ?_⟩
  · have : startIdxList (e1 ++ e2) = startIdxList e1 ++ startIdxList e2 := by
      simp [startIdxList]
    rw [this, hs1, hs2, hb1]
    have := intRangeLen_append (b + 1) n1 n2
    rw [show b + (n1 : Int) + 1 = (b + 1) + n1 by ring]
    exact this
  · have : stopsOf (e1 ++ e2) = stopsOf e1 + stopsOf e2 := by
      simp [stopsOf]
    omega

theorem SegOK.refl (bi : Int) (ob : String) : SegOK bi ob bi ob [] :=
  ⟨0, by simp, by simp [startIdxList, intRangeLen], by simp [stopsOf]⟩

/-! ### Block balance of the chat machine -/

theorem cClose_seg (s : CState) :
    SegOK s.blockIndex s.openBlockType (cClose s).1.blockIndex
      (cClose s).1.openBlockType (cClose s).2 := by
  unfold cClose
  split
  · exact SegOK.refl _ _
  · exact ⟨0, by simp, by simp [startIdxList, intRangeLen],
      by simp [stopsOf, openBit]; split <;> simp_all⟩

theorem cOpenThinking_seg (s : CState) :
    SegOK s.blockIndex s.openBlockType (cOpenThinking s).1.blockIndex
      (cOpenThinking s).1.openBlockType (cOpenThinking s).2 := by
  unfold cOpenThinking
  split
  · exact SegOK.refl _ _
  · refine ⟨1, by simp, by simp [startIdxList, intRangeLen], ?_⟩
    simp only [stopsOf, openBit]
    split <;> simp_all [List.countP_cons, List.countP_nil]

theorem cOpenText_seg (s : CState) :
    SegOK s.blockIndex s.openBlockType (cOpenText s).1.blockIndex
      (cOpenText s).1.openBlockType (cOpenText s).2 := by
  unfold cOpenText
  split
  · exact SegOK.refl _ _
  · refine ⟨1, by simp, by simp [startIdxList, intRangeLen], ?_⟩
    simp only [stopsOf, openBit]
    split <;> simp_all [List.countP_cons, List.countP_nil]

theorem segok_events_nil (s : CState) : SegOK s.blockIndex s.openBlockType
    s.blockIndex s.openBlockType [] := SegOK.refl _ _

theorem segok_delta_only (bi : Int) (ob : String) (i : Int) (d : StreamDelta) :
    SegOK bi ob bi ob [.contentBlockDelta i d] :=
  ⟨0, by simp, by simp [startIdxList, intRangeLen], by simp [stopsOf]⟩

theorem cStart_seg (s : CState) (chunk : ChatCompletionChunk) :
    SegOK s.blockIndex s.openBlockType (cStart s chunk).1.blockIndex
      (cStart s chunk).1.openBlockType (cStart s chunk).2 := by
  unfold cStart
  split
  · exact SegOK.refl _ _
  · exact ⟨0, by simp, by simp [startIdxList, intRangeLen], by simp [stopsOf]⟩

theorem cPhaseReasoningTxt_seg (s : CState) (d : ChunkDelta) :
    SegOK s.blockIndex s.openBlockType (cPhaseReasoningTxt s d).1.blockIndex
      (cPhaseReasoningTxt s d).1.openBlockType (cPhaseReasoningTxt s d).2 := by
  unfold cPhaseReasoningTxt
  split
  case h_2 => exact SegOK.refl _ _
  case h_1 rt _ =>
    split
    case isFalse => exact SegOK.refl _ _
    case isTrue =>
      simp only
      split
      case isTrue =>
        exact ((cClose_seg s).comp (cOpenThinking_seg _)).comp
          (segok_delta_only _ _ _ _)
      case isFalse =>
        exact (SegOK.refl _ _).comp (segok_delta_only _ _ _ _)

theorem cPhaseReasoningOpq_seg (s : CState) (d : ChunkDelta) :
    SegOK s.blockIndex s.openBlockType (cPhaseReasoningOpq s d).1.blockIndex
      (cPhaseReasoningOpq s d).1.openBlockType (cPhaseReasoningOpq s d).2 := by
  unfold cPhaseReasoningOpq
  split
  case h_2 => exact SegOK.refl _ _
  case h_1 opq _ =>
    split
    case isFalse => exact SegOK.refl _ _
    case isTrue =>
      split
      case isTrue =>
        exact (segok_delta_only _ _ _ _).comp (cClose_seg s)
      case isFalse =>
        split
        case isTrue =>
          exact (segok_delta_only _ _ _ _).comp (cClose_seg s)
        case isFalse =>
          have h1 := (cClose_seg s).comp (cOpenThinking_seg (cClose s).1)
          have h2 := h1.comp (segok_delta_only
            (cOpenThinking (cClose s).1).1.blockIndex
            (cOpenThinking (cClose s).1).1.openBlockType
            (cOpenThinking (cClose s).1).1.blockIndex
            { type := "thinking_delta", thinking := "Thinking..." })
          have h3 := h2.comp (segok_delta_only
            (cOpenThinking (cClose s).1).1.blockIndex
            (cOpenThinking (cClose s).1).1.openBlockType
            (cOpenThinking (cClose s).1).1.blockIndex
            { type := "signature_delta", signature := opq })
          have h4 := h3.comp (cClose_seg (cOpenThinking (cClose s).1).1)
          simpa using h4

theorem cPhaseContent_seg (s : CState) (d : ChunkDelta) :
    SegOK s.blockIndex s.openBlockType (cPhaseContent s d).1.blockIndex
      (cPhaseContent s d).1.openBlockType (cPhaseContent s d).2 := by
  unfold cPhaseContent
  split
  case h_2 => exact SegOK.refl _ _
  case h_1 c _ =>
    split
    case isFalse => exact SegOK.refl _ _
    case isTrue =>
      simp only
      split
      case isTrue =>
        -- thinking open: empty signature delta, close, then open text
        have h1 := (segok_delta_only s.blockIndex s.openBlockType s.blockIndex
          { type := "signature_delta", signature := "" }).comp (cClose_seg s)
        split
        case isTrue =>
          have h2 := h1.comp ((cClose_seg (cClose s).1).comp
            (cOpenText_seg (cClose (cClose s).1).1))
          exact h2.comp (segok_delta_only _ _ _ _)
        case isFalse =>
          exact (h1.comp (SegOK.refl _ _)).comp (segok_delta_only _ _ _ _)
      case isFalse =>
        split
        case isTrue =>
          have h2 := (SegOK.refl s.blockIndex s.openBlockType).comp
            ((cClose_seg s).comp (cOpenText_seg (cClose s).1))
          exact h2.comp (segok_delta_only _ _ _ _)
        case isFalse =>
          exact ((SegOK.refl _ _).comp (SegOK.refl _ _)).comp
            (segok_delta_only _ _ _ _)

/-- Opening a fresh block by hand (increment `blockIndex`, set the open
type, emit the start) is a valid segment from a closed state. -/
theorem segok_manual_open (bi : Int) (ob' : String) (b : ContentBlock)
    (h : ob' ≠ "") :
    SegOK bi "" (bi + 1) ob' [.contentBlockStart (bi + 1) b] := by
  refine ⟨1, by simp, by simp [startIdxList, intRangeLen], ?_⟩
  simp [stopsOf, openBit, List.countP_cons, List.countP_nil, h]

/-- The chat machine's close always leaves the block closed. -/
theorem cClose_open (s : CState) : (cClose s).1.openBlockType = "" := by
  unfold cClose; split <;> simp_all

theorem cToolCallStep_seg (s : CState) (tc : ToolCallDelta) :
    SegOK s.blockIndex s.openBlockType (cToolCallStep s tc).1.blockIndex
      (cToolCallStep s tc).1.openBlockType (cToolCallStep s tc).2 := by
  unfold cToolCallStep
  simp only
  split
  case h_1 b _ =>
    -- existing tool block: no start/stop, at most one delta
    refine ⟨0, by simp, ?_, ?_⟩ <;>
      · simp only [startIdxList, stopsOf]
        split <;> first
          | (split <;> simp [intRangeLen, List.countP_cons, List.countP_nil])
          | simp [intRangeLen, List.countP_cons, List.countP_nil]
  case h_2 _ =>
    have hcc := cClose_seg s
    rw [cClose_open s] at hcc
    have h1 := hcc.comp
      (segok_manual_open (cClose s).1.blockIndex "tool_use"
        { type := "tool_use", id := tc.id,
          name := match tc.function with | some f => f.name | none => "" }
        (by simp))
    have h2 : SegOK s.blockIndex s.openBlockType ((cClose s).1.blockIndex + 1)
        "tool_use" ((cClose s).2 ++
          [.contentBlockStart ((cClose s).1.blockIndex + 1)
            { type := "tool_use", id := tc.id,
              name := match tc.function with | some f => f.name | none => "" }]) := h1
    -- append the optional input_json_delta
    have h3 := h2.comp (show SegOK ((cClose s).1.blockIndex + 1) "tool_use"
        ((cClose s).1.blockIndex + 1) "tool_use"
        (match tc.function with
         | some f =>
             if f.arguments ≠ "" then
               [AnthEvent.contentBlockDelta ((cClose s).1.blockIndex + 1)
                 { type := "input_json_delta", pjson := f.arguments }]
             else []
         | none => []) by
      split
      · split
        · exact segok_delta_only _ _ _ _
        · exact SegOK.refl _ _
      · exact SegOK.refl _ _)
    simpa using h3

theorem cPhaseToolCalls_seg (s : CState) (tcs : List ToolCallDelta) :
    SegOK s.blockIndex s.openBlockType (cPhaseToolCalls s tcs).1.blockIndex
      (cPhaseToolCalls s tcs).1.openBlockType (cPhaseToolCalls s tcs).2 := by
  unfold cPhaseToolCalls
  suffices h : ∀ (l : List ToolCallDelta) (p : CState × List AnthEvent),
      SegOK s.blockIndex s.openBlockType p.1.blockIndex p.1.openBlockType p.2 →
      SegOK s.blockIndex s.openBlockType
        (l.foldl (fun acc tc =>
          let q := cToolCallStep acc.1 tc
          (q.1, acc.2 ++ q.2)) p).1.blockIndex
        (l.foldl (fun acc tc =>
          let q := cToolCallStep acc.1 tc
          (q.1, acc.2 ++ q.2)) p).1.openBlockType
        (l.foldl (fun acc tc =>
          let q := cToolCallStep acc.1 tc
          (q.1, acc.2 ++ q.2)) p).2 by
    exact h tcs (s, []) (SegOK.refl _ _)
  intro l
  induction l with
  | nil => intro p hp; exact hp
  | cons tc rest ih =>
      intro p hp
      exact ih _ (hp.comp (cToolCallStep_seg p.1 tc))

theorem cPhaseFinish_seg (s : CState) (chunk : ChatCompletionChunk)
    (choice : ChunkChoice) :
    SegOK s.blockIndex s.openBlockType
      (cPhaseFinish s chunk choice).1.blockIndex
      (cPhaseFinish s chunk choice).1.openBlockType
      (cPhaseFinish s chunk choice).2 := by
  unfold cPhaseFinish
  split
  case h_2 => exact SegOK.refl _ _
  case h_1 reason _ =>
    have h1 := cClose_seg s
    obtain ⟨n, hb, hs, hc⟩ := h1
    refine ⟨n, ?_, ?_, ?_⟩ <;>
      · simp only [startIdxList, stopsOf, List.filterMap_append,
          List.countP_append] at *
        split <;>
          simp_all [startIdxList, stopsOf, intRangeLen,
            List.countP_cons, List.countP_nil]

theorem cStep_seg (s : CState) (chunk : ChatCompletionChunk) :
    SegOK s.blockIndex s.openBlockType (cStep s chunk).1.blockIndex
      (cStep s chunk).1.openBlockType (cStep s chunk).2 := by
  unfold cStep
  simp only
  split
  case h_1 =>
    have h := cStart_seg s chunk
    split <;> simpa using h.comp (SegOK.refl _ _)
  case h_2 choice rest _ =>
    split
    case isTrue =>
      exact (cStart_seg s chunk).comp (segok_delta_only _ _ _ _)
    case isFalse =>
      exact ((((((cStart_seg s chunk).comp
        (cPhaseReasoningTxt_seg _ choice.delta)).comp
        (cPhaseReasoningOpq_seg _ choice.delta)).comp
        (cPhaseContent_seg _ choice.delta)).comp
        (cPhaseToolCalls_seg _ choice.delta.toolCalls)).comp
        (cPhaseFinish_seg _ chunk choice))

theorem cRun_seg (s : CState) (chunks : List ChatCompletionChunk) :
    SegOK s.blockIndex s.openBlockType (cRun s chunks).1.blockIndex
      (cRun s chunks).1.openBlockType (cRun s chunks).2 := by
  induction chunks generalizing s with
  | nil => exact SegOK.refl _ _
  | cons chunk rest ih =>
      exact (cStep_seg s chunk).comp (ih (cStep s chunk).1)

/-! ### Block balance of the Responses machine -/

theorem rClose_seg (s : RState) :
    SegOK s.blockIndex s.openBlockType (rClose s).1.blockIndex
      (rClose s).1.openBlockType (rClose s).2 := by
  unfold rClose
  split
  · exact SegOK.refl _ _
  · exact ⟨0, by simp, by simp [startIdxList, intRangeLen],
      by simp [stopsOf, openBit, List.countP_cons, List.countP_nil]; split <;> simp_all⟩

/-- The Responses machine's close always leaves the block closed. -/
theorem rClose_open (s : RState) : (rClose s).1.openBlockType = "" := by
  unfold rClose; split <;> simp_all

theorem rSummaryBlock_seg (s : RState) (outputIndex : Int) :
    SegOK s.blockIndex s.openBlockType
      (rSummaryBlock s outputIndex).1.blockIndex
      (rSummaryBlock s outputIndex).1.openBlockType
      (rSummaryBlock s outputIndex).2.2 := by
  unfold rSummaryBlock
  split
  case h_1 => exact SegOK.refl _ _
  case h_2 =>
    have hcc := rClose_seg s
    rw [rClose_open s] at hcc
    exact hcc.comp (segok_manual_open (rClose s).1.blockIndex "thinking"
      { type := "thinking", thinking := "" } (by simp))

theorem rOpenOrGetTextBlock_seg (s : RState) (outputIndex contentIndex : Int) :
    SegOK s.blockIndex s.openBlockType
      (rOpenOrGetTextBlock s outputIndex contentIndex).1.blockIndex
      (rOpenOrGetTextBlock s outputIndex contentIndex).1.openBlockType
      (rOpenOrGetTextBlock s outputIndex contentIndex).2.2 := by
  unfold rOpenOrGetTextBlock
  split
  case h_1 => exact SegOK.refl _ _
  case h_2 =>
    have hcc := rClose_seg s
    rw [rClose_open s] at hcc
    exact hcc.comp (segok_manual_open (rClose s).1.blockIndex "text"
      { type := "text", text := "" } (by simp))

/-- Events that are neither starts nor stops form a trivially balanced
segment. -/
theorem segok_neutral (bi : Int) (ob : String) (es : List AnthEvent)
    (h : startIdxList es = [] ∧ stopsOf es = 0) :
    SegOK bi ob bi ob es :=
  ⟨0, by simp, by simp [h.1, intRangeLen], by simp [h.2]⟩

theorem rDoneReasoning_seg (s : RState) (item : ResponsesOutput) :
    SegOK s.blockIndex s.openBlockType (rDoneReasoning s item).1.blockIndex
      (rDoneReasoning s item).1.openBlockType (rDoneReasoning s item).2 := by
  unfold rDoneReasoning
  split
  case isFalse => exact SegOK.refl _ _
  case isTrue =>
    simp only
    have hcc := rClose_seg s
    rw [rClose_open s] at hcc
    have hopen := hcc.comp (segok_manual_open (rClose s).1.blockIndex
      "thinking" { type := "thinking", thinking := "" } (by simp))
    have hdeltas : SegOK ((rClose s).1.blockIndex + 1) "thinking"
        ((rClose s).1.blockIndex + 1) "thinking"
        ([AnthEvent.contentBlockDelta ((rClose s).1.blockIndex + 1)
            { type := "thinking_delta",
              thinking := reasoningThinkingText item.summary }] ++
         (if reasoningSignature item.encryptedContent item.id ≠ "" then
           [AnthEvent.contentBlockDelta ((rClose s).1.blockIndex + 1)
             { type := "signature_delta",
               signature := reasoningSignature item.encryptedContent item.id }]
          else [])) := by
      refine (segok_delta_only _ _ _ _).comp ?_
      split
      · exact segok_delta_only _ _ _ _
      · exact SegOK.refl _ _
    have h2 := (hopen.comp hdeltas).comp
      (rClose_seg { (rClose s).1 with
        blockIndex := (rClose s).1.blockIndex + 1,
        openBlockType := "thinking" })
    simpa [List.append_assoc] using h2

theorem rStep_seg (s : RState) (e : RespEvent) :
    SegOK s.blockIndex s.openBlockType (rStep s e).1.blockIndex
      (rStep s e).1.openBlockType (rStep s e).2 := by
  cases e with
  | created id model usage =>
      exact segok_neutral _ _ _ (by simp [startIdxList, stopsOf, rStep])
  | outputItemAdded outputIndex item =>
      simp only [rStep]
      split
      case isTrue =>
        have hcc := rClose_seg s
        rw [rClose_open s] at hcc
        exact hcc.comp (segok_manual_open (rClose s).1.blockIndex "tool_use"
          { type := "tool_use", id := item.callId, name := item.name } (by simp))
      case isFalse => exact SegOK.refl _ _
  | outputItemDone outputIndex item =>
      simp only [rStep]
      have hpr := rDoneReasoning_seg s item
      split
      case isTrue =>
        split
        case h_1 =>
          split
          case isTrue => exact hpr.comp (rClose_seg _)
          case isFalse => exact hpr
        case h_2 => exact hpr
      case isFalse => exact hpr
  | reasoningSummaryTextDelta itemId outputIndex summaryIndex delta =>
      exact (rSummaryBlock_seg s outputIndex).comp (segok_delta_only _ _ _ _)
  | reasoningSummaryTextDone outputIndex text =>
      simp only [rStep]
      split
      case isTrue =>
        exact (rSummaryBlock_seg s outputIndex).comp (segok_delta_only _ _ _ _)
      case isFalse => exact rSummaryBlock_seg s outputIndex
  | outputTextDelta outputIndex contentIndex delta =>
      exact (rOpenOrGetTextBlock_seg s outputIndex contentIndex).comp
        (segok_delta_only _ _ _ _)
  | outputTextDone outputIndex contentIndex text =>
      simp only [rStep]
      split
      case isTrue =>
        exact (rOpenOrGetTextBlock_seg s outputIndex contentIndex).comp
          (segok_delta_only _ _ _ _)
      case isFalse => exact rOpenOrGetTextBlock_seg s outputIndex contentIndex
  | functionCallArgsDelta outputIndex delta =>
      simp only [rStep]
      split
      case isTrue =>
        refine (rClose_seg _).comp (segok_neutral _ _ _ ?_)
        simp [startIdxList, stopsOf, List.countP_cons, List.countP_nil]
      case isFalse =>
        split
        case h_1 => exact segok_delta_only _ _ _ _
        case h_2 => exact SegOK.refl _ _
  | functionCallArgsDone outputIndex arguments =>
      simp only [rStep]
      split
      case h_1 =>
        split
        case isTrue => exact segok_delta_only _ _ _ _
        case isFalse => exact SegOK.refl _ _
      case h_2 => exact SegOK.refl _ _
  | completed response =>
      refine (rClose_seg _).comp (segok_neutral _ _ _ ?_)
      simp [startIdxList, stopsOf, List.countP_cons, List.countP_nil]
  | incompleteEvt response =>
      refine (rClose_seg _).comp (segok_neutral _ _ _ ?_)
      simp [startIdxList, stopsOf, List.countP_cons, List.countP_nil]
  | failed errMessage =>
      refine (rClose_seg _).comp (segok_neutral _ _ _ ?_)
      simp [startIdxList, stopsOf, List.countP_cons, List.countP_nil]
  | errorEvt message =>
      refine (rClose_seg _).comp (segok_neutral _ _ _ ?_)
      simp [startIdxList, stopsOf, List.countP_cons, List.countP_nil]
  | unknown => exact SegOK.refl _ _

theorem rRun_seg (s : RState) (events : List RespEvent) :
    SegOK s.blockIndex s.openBlockType (rRun s events).1.blockIndex
      (rRun s events).1.openBlockType (rRun s events).2 := by
  induction events generalizing s with
  | nil => exact SegOK.refl _ _
  | cons e rest ih =>
      exact (rStep_seg s e).comp (ih (rStep s e).1)

/-! ## Claim C9: count_tokens always replies `{input_tokens ≥ 1}` -/

/-- C9: `POST /v1/messages/count_tokens` always replies with a body
`{input_tokens: n}` with `n ≥ 1` (the handler has no non-200 path), and
when the request body cannot be decoded the reply is exactly
`{input_tokens: 1}`.  The translation step of the Go port is infallible,
so its documented fallback to 1 is covered by the decode-failure case. -/
theorem countTokens_body_ge_one :
    ∀ (reg : Registry) (req : Option AnthropicRequest) (beta : String),
      1 ≤ CountTokensBody reg req beta ∧ CountTokensBody reg none beta = 1 := by
  intro reg req beta
  constructor
  · cases req with
    | none => simp [CountTokensBody]
    | some req =>
        simp only [CountTokensBody, estimateTokens]
        split <;> omega
  · simp [CountTokensBody]

/-! ## Claim C10: non-streaming Responses translation never returns an
empty content list -/

/-- C10: translating a Responses result always yields at least one
content block; when walking `output[]` yields none, the translator falls
back to a single text block holding the top-level `output_text` if that
is non-empty, and to a single empty text block otherwise. -/
theorem responsesResult_content_fallback :
    ∀ result : ResponsesResult,
      1 ≤ (translateResponsesResultToAnthropic result).content.length ∧
      (walkResponsesOutput result.output ≠ [] →
        (translateResponsesResultToAnthropic result).content =
          walkResponsesOutput result.output) ∧
      (walkResponsesOutput result.output = [] → result.outputText ≠ "" →
        (translateResponsesResultToAnthropic result).content =
          [{ type := "text", text := result.outputText }]) ∧
      (walkResponsesOutput result.output = [] → result.outputText = "" →
        (translateResponsesResultToAnthropic result).content =
          [{ type := "text", text := "" }]) := by
  intro result
  simp only [translateResponsesResultToAnthropic]
  refine ⟨?_, ?_, ?_, ?_⟩
  · split
    case isTrue => simp
    case isFalse h =>
      split
      case isTrue => simp
      case isFalse h2 => exact List.length_pos.mpr h2
  · intro hne
    simp [hne]
  · intro hnil hot
    simp [hnil, hot]
  · intro hnil hot
    simp [hnil, hot]

/-- Witness for the fallback clauses of `responsesResult_content_fallback`
at a concrete result with empty output walk. -/
theorem responsesResult_content_fallback_witness :
    (translateResponsesResultToAnthropic { outputText := "OT" }).content =
      [{ type := "text", text := "OT" }] :=
  (responsesResult_content_fallback { outputText := "OT" }).2.2.1
    (by decide) (by decide)

/-! ## Claim C1: usage bounds of the translated responses -/

/-- A well-formed upstream Chat Completions usage payload: non-negative
counts, with cached tokens not exceeding the prompt tokens. -/
def ccUsageOK (u : ChatCompletionUsage) : Prop :=
  0 ≤ u.promptTokens ∧ 0 ≤ u.completionTokens ∧
    ∀ d, u.promptTokensDetails = some d →
      0 ≤ d.cachedTokens ∧ d.cachedTokens ≤ u.promptTokens

/-- A well-formed upstream Responses usage payload. -/
def ruUsageOK (u : ResponsesUsage) : Prop :=
  0 ≤ u.inputTokens ∧ 0 ≤ u.outputTokens ∧
    ∀ d, u.inputTokensDetails = some d →
      0 ≤ d.cachedTokens ∧ d.cachedTokens ≤ u.inputTokens

/-- The token bounds the spec claims of every translated response,
relative to the upstream-reported input token count. -/
def usageBounds (a : AnthropicUsage) (upstreamInput : Int) : Prop :=
  0 ≤ a.inputTokens ∧ 0 ≤ a.outputTokens ∧
    0 ≤ a.cacheReadInputTokens ∧ a.cacheReadInputTokens ≤ upstreamInput

/-- The upstream-reported input token count of a Chat Completions usage
payload (0 when absent). -/
def ccUpstreamInput : Option ChatCompletionUsage → Int
  | none => 0
  | some u => u.promptTokens

/-- The upstream-reported input token count of a Responses usage payload
(0 when absent). -/
def ruUpstreamInput : Option ResponsesUsage → Int
  | none => 0
  | some u => u.inputTokens

/-- An upstream usage payload reporting more cached than prompt
tokens. -/
def overCachedUsage : ChatCompletionUsage :=
  { promptTokens := 10, completionTokens := 5,
    promptTokensDetails := some { cachedTokens := 100 } }

/-- A well-formed upstream usage payload. -/
def smallCachedUsage : ChatCompletionUsage :=
  { promptTokens := 10, completionTokens := 5,
    promptTokensDetails := some { cachedTokens := 4 } }

/-- C1 counterexample: the translators subtract the reported
`cached_tokens` without clamping, so an upstream payload reporting more
cached than prompt tokens yields a negative `input_tokens` and a
`cache_read_input_tokens` above the upstream input count.  This refutes
the claim as stated over every upstream usage payload. -/
theorem usage_bounds_counterexample :
    (translateToAnthropic { usage := some overCachedUsage }).usage =
      { inputTokens := -90, outputTokens := 5, cacheReadInputTokens := 100 } ∧
    ((-90 : Int) < 0) ∧
    ccUpstreamInput (some overCachedUsage) < 100 := by
  refine ⟨?_, by decide, by decide⟩
  rfl

/-- C1 amended: for every upstream usage payload whose fields are
non-negative and whose reported cached tokens do not exceed the reported
prompt/input tokens, every translation path (Chat Completions and
Responses, non-streaming result translation and streaming
`message_start` seeding) produces `input_tokens ≥ 0`,
`output_tokens ≥ 0`, `cache_read_input_tokens ≥ 0` and
`cache_read_input_tokens ≤` the upstream input count. -/
theorem usage_bounds_of_wellformed :
    (∀ resp : ChatCompletionResponse,
      (∀ u, resp.usage = some u → ccUsageOK u) →
      usageBounds (translateToAnthropic resp).usage (ccUpstreamInput resp.usage)) ∧
    (∀ result : ResponsesResult,
      (∀ u, result.usage = some u → ruUsageOK u) →
      usageBounds (translateResponsesResultToAnthropic result).usage
        (ruUpstreamInput result.usage)) ∧
    (∀ usage : Option ChatCompletionUsage,
      (∀ u, usage = some u → ccUsageOK u) →
      usageBounds (chatSeedUsage usage) (ccUpstreamInput usage)) ∧
    (∀ usage : Option ResponsesUsage,
      (∀ u, usage = some u → ruUsageOK u) →
      usageBounds (respSeedUsage usage) (ruUpstreamInput usage)) := by
  have hcc : ∀ usage : Option ChatCompletionUsage,
      (∀ u, usage = some u → ccUsageOK u) →
      usageBounds (chatUsage usage) (ccUpstreamInput usage) := by
    intro usage h
    cases usage with
    | none => simp [chatUsage, ccUpstreamInput, usageBounds]
    | some u =>
        have hu := h u rfl
        obtain ⟨h1, h2, h3⟩ := hu
        cases hd : u.promptTokensDetails with
        | none => simp [chatUsage, ccUpstreamInput, usageBounds, hd]; omega
        | some d =>
            have := h3 d hd
            simp [chatUsage, ccUpstreamInput, usageBounds, hd]
            omega
  have hru : ∀ usage : Option ResponsesUsage,
      (∀ u, usage = some u → ruUsageOK u) →
      usageBounds (responsesUsage usage) (ruUpstreamInput usage) := by
    intro usage h
    cases usage with
    | none => simp [responsesUsage, ruUpstreamInput, usageBounds]
    | some u =>
        have hu := h u rfl
        obtain ⟨h1, h2, h3⟩ := hu
        cases hd : u.inputTokensDetails with
        | none => simp [responsesUsage, ruUpstreamInput, usageBounds, hd]; omega
        | some d =>
            have := h3 d hd
            simp [responsesUsage, ruUpstreamInput, usageBounds, hd]
            omega
  have hseedc : ∀ usage : Option ChatCompletionUsage,
      (∀ u, usage = some u → ccUsageOK u) →
      usageBounds (chatSeedUsage usage) (ccUpstreamInput usage) := by
    intro usage h
    cases usage with
    | none => simp [chatSeedUsage, ccUpstreamInput, usageBounds]
    | some u =>
        have hu := h u rfl
        obtain ⟨h1, h2, h3⟩ := hu
        cases hd : u.promptTokensDetails with
        | none => simp [chatSeedUsage, ccUpstreamInput, usageBounds, hd]; omega
        | some d =>
            have := h3 d hd
            simp [chatSeedUsage, ccUpstreamInput, usageBounds, hd]
            omega
  have hseedr : ∀ usage : Option ResponsesUsage,
      (∀ u, usage = some u → ruUsageOK u) →
      usageBounds (respSeedUsage usage) (ruUpstreamInput usage) := by
    intro usage h
    cases usage with
    | none => simp [respSeedUsage, ruUpstreamInput, usageBounds]
    | some u =>
        have hu := h u rfl
        obtain ⟨h1, h2, h3⟩ := hu
        cases hd : u.inputTokensDetails with
        | none => simp [respSeedUsage, ruUpstreamInput, usageBounds, hd]; omega
        | some d =>
            have := h3 d hd
            simp [respSeedUsage, ruUpstreamInput, usageBounds, hd]
            omega
  exact ⟨fun resp h => hcc resp.usage h,
         fun result h => hru result.usage h, hseedc, hseedr⟩

/-- Witness for `usage_bounds_of_wellformed` at a concrete well-formed
payload. -/
theorem usage_bounds_of_wellformed_witness :
    usageBounds (translateToAnthropic { usage := some smallCachedUsage }).usage
      (ccUpstreamInput (some smallCachedUsage)) :=
  usage_bounds_of_wellformed.1 { usage := some smallCachedUsage }
    (by
      intro u hu
      cases hu
      refine ⟨by decide, by decide, ?_⟩
      intro d hd
      cases hd
      exact ⟨by decide, by decide⟩)

/-! ## Claim C4: the thinking-budget clamp -/

/-- The effective lower bound of the clamp: the descriptor's
`min_thinking_budget` whenever it is positive (it can be below 1024),
otherwise 1024. -/
def clampLower (reg : Registry) (modelID : String) : Int :=
  match reg modelID with
  | some m =>
      if 0 < m.capabilities.supports.minThinkingBudget then
        m.capabilities.supports.minThinkingBudget
      else 1024
  | none => 1024

/-- The effective upper bound of the clamp: `min(max_thinking_budget,
maxTokens - 1)` when the descriptor declares a positive
`max_thinking_budget`, else `maxTokens - 1`. -/
def clampUpper (reg : Registry) (modelID : String) (maxTokens : Int) : Int :=
  match reg modelID with
  | some m =>
      if 0 < m.capabilities.supports.maxThinkingBudget then
        min m.capabilities.supports.maxThinkingBudget (maxTokens - 1)
      else maxTokens - 1
  | none => maxTokens - 1

/-- A registry whose only model declares `min_thinking_budget = 500`. -/
def lowMinRegistry : Registry :=
  fun _ => some { capabilities := { supports := { minThinkingBudget := 500 } } }

/-- A thinking request with budget 100 and `max_tokens` 10000. -/
def lowBudgetReq : AnthropicRequest :=
  { model := "m", maxTokens := 10000,
    thinking := some { type := "enabled", budgetTokens := 100 } }

/-- C4 counterexample: with a descriptor declaring
`min_thinking_budget = 500`, a budget of 100 is clamped to 500, not to
`max(min_thinking_budget, 1024) = 1024` as the claim's formula demands —
the descriptor's positive minimum replaces 1024 even when it is
smaller. -/
theorem clamp_lower_bound_counterexample :
    (translateToOpenAI lowMinRegistry lowBudgetReq "").maxTokens = some 500 ∧
    min (max (100 : Int) (max 500 1024)) (10000 - 1) = 1024 ∧
    (500 : Int) ≠ 1024 := by
  refine ⟨rfl, by decide, by decide⟩

/-- C4 amended: the clamp is `min(max(budget, lo), hi)` where `lo` is
the descriptor's positive `min_thinking_budget` (not maxed with 1024)
falling back to 1024, and `hi` is `min(max_thinking_budget,
max_tokens - 1)` falling back to `max_tokens - 1`; the translator applies
it exactly when `thinking.budget_tokens > 0` and otherwise passes
`max_tokens` through unchanged. -/
theorem clamp_thinking_budget_spec :
    (∀ (reg : Registry) (modelID : String) (budget maxTokens : Int),
      clampThinkingBudget reg modelID budget maxTokens =
        min (max budget (clampLower reg modelID))
          (clampUpper reg modelID maxTokens)) ∧
    (∀ (reg : Registry) (req : AnthropicRequest) (ep : String)
        (t : ThinkingConfig), req.thinking = some t → 0 < t.budgetTokens →
      (translateToOpenAI reg req ep).maxTokens =
        some (clampThinkingBudget reg req.model t.budgetTokens req.maxTokens)) ∧
    (∀ (reg : Registry) (req : AnthropicRequest) (ep : String)
        (t : ThinkingConfig), req.thinking = some t → t.budgetTokens ≤ 0 →
      (translateToOpenAI reg req ep).maxTokens = some req.maxTokens) ∧
    (∀ (reg : Registry) (req : AnthropicRequest) (ep : String),
      req.thinking = none →
      (translateToOpenAI reg req ep).maxTokens = some req.maxTokens) := by
  refine ⟨?_, ?_, ?_, ?_⟩
  · intro reg modelID budget maxTokens
    unfold clampThinkingBudget clampLower clampUpper
    cases reg modelID with
    | none => simp only; rw [min_def, max_def]; split_ifs <;> omega
    | some m => simp only; rw [min_def, max_def]; split_ifs <;> omega
  · intro reg req ep t ht hpos
    simp only [translateToOpenAI, ht]
    simp [show ¬ t.budgetTokens ≤ 0 by omega, hpos]
  · intro reg req ep t ht hnonpos
    simp only [translateToOpenAI, ht]
    simp [show ¬ 0 < t.budgetTokens by omega]
  · intro reg req ep ht
    simp [translateToOpenAI, ht]

/-- Witness for `clamp_thinking_budget_spec` at a concrete request. -/
theorem clamp_thinking_budget_spec_witness :
    (translateToOpenAI lowMinRegistry lowBudgetReq "").maxTokens =
      some (clampThinkingBudget lowMinRegistry "m" 100 10000) :=
  clamp_thinking_budget_spec.2.1 lowMinRegistry lowBudgetReq ""
    { type := "enabled", budgetTokens := 100 } rfl (by decide)

/-! ## Claim C7: the `@` signature encoding round-trip -/

theorem splitFirstAmp_append (l r : List Char) (h : '@' ∉ l) :
    splitFirstAmp (l ++ '@' :: r) = (l, some r) := by
  induction l with
  | nil => simp [splitFirstAmp]
  | cons c rest ih =>
      have hc : c ≠ '@' := fun hc => h (by simp [hc])
      have hrest : '@' ∉ rest := fun hr => h (by simp [hr])
      simp [splitFirstAmp, hc, ih hrest]

/-- C7 counterexample: the signature `"E@"` contains exactly one `'@'`,
but splitting it yields the pair `("E", "")`, whose re-encoding is
`"E"`, not the original signature — the join drops the separator when
the id is empty, so split-then-join is not the identity on every
signature with exactly one `'@'`. -/
theorem signature_roundtrip_counterexample :
    ("E@".data.count '@' = 1) ∧
    signatureSplit "E@" = ("E", "") ∧
    reasoningSignature (signatureSplit "E@").1 (signatureSplit "E@").2 = "E" ∧
    ("E" : String) ≠ "E@" := by
  refine ⟨by decide, by decide, by decide, by decide⟩

/-- C7 amended: split-then-join is the identity on every signature with
exactly one `'@'` whose parts before and after the `'@'` are both
non-empty, and join-then-split is the identity on every pair with
non-empty `encrypted_content` and `id` where `encrypted_content`
contains no `'@'`. -/
theorem signature_roundtrip :
    (∀ l r : List Char, '@' ∉ l → '@' ∉ r → l ≠ [] → r ≠ [] →
      reasoningSignature (signatureSplit ⟨l ++ '@' :: r⟩).1
          (signatureSplit ⟨l ++ '@' :: r⟩).2 = ⟨l ++ '@' :: r⟩) ∧
    (∀ e i : String, e ≠ "" → i ≠ "" → '@' ∉ e.data →
      signatureSplit (reasoningSignature e i) = (e, i)) := by
  constructor
  · intro l r hl hr hlne hrne
    have hdata : (⟨l ++ '@' :: r⟩ : String).data = l ++ '@' :: r := rfl
    have hsplit : signatureSplit ⟨l ++ '@' :: r⟩ = (⟨l⟩, ⟨r⟩) := by
      simp [signatureSplit, hdata, splitFirstAmp_append l r hl]
    rw [hsplit]
    have hlne' : (⟨l⟩ : String) ≠ "" := by
      intro hcon
      exact hlne (congrArg String.data hcon)
    have hrne' : (⟨r⟩ : String) ≠ "" := by
      intro hcon
      exact hrne (congrArg String.data hcon)
    simp only [reasoningSignature, hlne', hrne', if_true, ne_eq,
      not_false_iff, ite_true]
    apply String.ext
    show l ++ "@".data ++ r = l ++ '@' :: r
    simp
  · intro e i he hi hne
    have hjoin : reasoningSignature e i = e ++ "@" ++ i := by
      simp [reasoningSignature, he, hi]
    rw [hjoin]
    have hdata : (e ++ "@" ++ i).data = e.data ++ '@' :: i.data := by
      show e.data ++ "@".data ++ i.data = e.data ++ '@' :: i.data
      simp
    simp [signatureSplit, hdata, splitFirstAmp_append e.data i.data hne]

/-- Witness for `signature_roundtrip` at concrete strings. -/
theorem signature_roundtrip_witness :
    signatureSplit (reasoningSignature "E" "r1") = ("E", "r1") :=
  signature_roundtrip.2 "E" "r1" (by decide) (by decide) (by decide)

/-! ## Claim C8: the Stream ID Synchronizer rewrites drifting item ids -/

/-- Every canonical id the synchronizer records is non-empty: recorded
ids come from a non-empty `item.id` or from the synthesized
`oi_<idx>_<suffix>` form. -/
def SyncInv (s : SyncState) : Prop :=
  ∀ i c, s.canonicalIDs.lookup i = some c → c ≠ ""

theorem syncProcessDone_state (s : SyncState) (e : SyncEvent) :
    (syncProcessDone s e).1 = s := rfl

theorem syncPatchItemID_state (s : SyncState) (e : SyncEvent) :
    (syncPatchItemID s e).1 = s := rfl

theorem syncProcess_inv (s : SyncState) (e : SyncEvent) (suffix : String)
    (h : SyncInv s) : SyncInv (syncProcess s e suffix).1 := by
  unfold syncProcess
  split
  case isTrue =>
    intro i c hc
    have hc' : ((e.outputIndex.getD 0,
        if (e.item.map (·.id)).getD "" = "" then
          "oi_" ++ toString (e.outputIndex.getD 0) ++ "_" ++ suffix
        else (e.item.map (·.id)).getD "") :: s.canonicalIDs).lookup i =
        some c := hc
    simp only [List.lookup] at hc'
    split at hc'
    · cases hc'
      split
      · intro hcon
        have hd := congrArg String.data hcon
        simp at hd
      · intro hcon
        simp_all
    · exact h i c hc'
  case isFalse =>
    split
    case isTrue =>
      rw [syncProcessDone_state]
      exact h
    case isFalse =>
      rw [syncPatchItemID_state]
      exact h

/-- The synchronizer state reached from the start of a stream satisfies
the canonical-id invariant. -/
theorem syncRun_inv (trace : List (SyncEvent × String)) :
    SyncInv (syncRun mkSyncState trace) := by
  have h : ∀ (t : List (SyncEvent × String)) (s : SyncState), SyncInv s →
      SyncInv (syncRun s t) := by
    intro t
    induction t with
    | nil => intro s hs; exact hs
    | cons p rest ih =>
        intro s hs
        exact ih _ (syncProcess_inv s p.1 p.2 hs)
  exact h trace mkSyncState (by intro i c hc; simp [mkSyncState, List.lookup] at hc)

/-- C8: in the Responses passthrough synchronizer, any event other than
`output_item.added`/`done` that carries an `output_index` whose recorded
canonical id differs from the event's `item_id` is forwarded with its
`item_id` rewritten to the canonical id. -/
theorem syncProcess_rewrites_item_id :
    ∀ (trace : List (SyncEvent × String)) (e : SyncEvent) (suffix : String)
      (i : Int) (c : String),
      e.eventType ≠ "response.output_item.added" →
      e.eventType ≠ "response.output_item.done" →
      e.outputIndex = some i →
      (syncRun mkSyncState trace).canonicalIDs.lookup i = some c →
      e.itemId ≠ c →
      (syncProcess (syncRun mkSyncState trace) e suffix).2.itemId = c := by
  intro trace e suffix i c hadd hdone hidx hc hne
  have hcne : c ≠ "" := syncRun_inv trace i c hc
  unfold syncProcess
  rw [if_neg hadd, if_neg hdone]
  show (syncPatchedEvent (syncRun mkSyncState trace) e).itemId = c
  unfold syncPatchedEvent
  simp only [hidx, hc]
  rw [if_neg hcne, if_pos hne]

/-- Witness for `syncProcess_rewrites_item_id`: after an `added` event
with id `"A"` at index 0, a delta event carrying `item_id = "B"` is
rewritten to `"A"`. -/
theorem syncProcess_rewrites_item_id_witness :
    (syncProcess
      (syncRun mkSyncState
        [({ eventType := "response.output_item.added", outputIndex := some 0,
            item := some { id := "A" } }, "sfx")])
      { eventType := "response.output_text.delta", outputIndex := some 0,
        itemId := "B" } "zzz").2.itemId = "A" :=
  syncProcess_rewrites_item_id
    [({ eventType := "response.output_item.added", outputIndex := some 0,
        item := some { id := "A" } }, "sfx")]
    { eventType := "response.output_text.delta", outputIndex := some 0,
      itemId := "B" } "zzz" 0 "A" (by decide) (by decide) rfl (by decide)
    (by decide)

/-! ## Claim C2: the infinite-whitespace guard -/

/-- The longest run of consecutive `\r`/`\n`/`\t` characters (any other
character resets the run) ever reached while scanning a character list —
the quantity the claim bounds, measured inside deltas as well. -/
def wsMaxRunAux : List Char → Nat → Nat → Nat
  | [], _, best => best
  | c :: rest, cur, best =>
      if c = '\r' ∨ c = '\n' ∨ c = '\t' then
        wsMaxRunAux rest (cur + 1) (max best (cur + 1))
      else wsMaxRunAux rest 0 best

/-- The longest whitespace run across the concatenation of a sequence of
argument deltas. -/
def wsMaxRun (deltas : List String) : Nat :=
  wsMaxRunAux (deltas.flatMap (·.data)) 0 0

/-- A run of 21 newlines ending strictly inside one delta. -/
def wsEscapeDelta : String := ⟨List.replicate 21 '\n' ++ ['x']⟩

/-- C2 counterexample: a single `function_call_arguments.delta` whose
text holds a 21-newline run followed by a non-whitespace character is
forwarded as a normal `input_json_delta` — the stored run length is
checked only after scanning the whole delta, by which point the
trailing `x` has reset it to 0, so the machine emits neither the
`content_block_stop` nor the error event although the claim's
whitespace run exceeded 20. -/
theorem ws_guard_counterexample :
    20 < wsMaxRun [wsEscapeDelta] ∧
    (rRun (mkRState "m")
      [.outputItemAdded 0 { type := "function_call", callId := "c", name := "f" },
       .functionCallArgsDelta 0 wsEscapeDelta]).2 =
      [.contentBlockStart 0 { type := "tool_use", id := "c", name := "f" },
       .contentBlockDelta 0 { type := "input_json_delta",
                              pjson := wsEscapeDelta }] ∧
    hasErrorEvent (rRun (mkRState "m")
      [.outputItemAdded 0 { type := "function_call", callId := "c", name := "f" },
       .functionCallArgsDelta 0 wsEscapeDelta]).2 = false ∧
    stopsOf (rRun (mkRState "m")
      [.outputItemAdded 0 { type := "function_call", callId := "c", name := "f" },
       .functionCallArgsDelta 0 wsEscapeDelta]).2 = 0 := by
  refine ⟨by decide, by decide, by decide, by decide⟩

/-- C2 amended: the run is maintained across
`function_call_arguments.delta` events per output index and checked once
per event after scanning the whole delta; whenever the checked run
exceeds 20, the machine closes the currently open block (emitting its
`content_block_stop`), emits exactly the documented error event, and
emits nothing else for that delta.  Runs that exceed 20 strictly inside
a single delta and end before the delta's last character are not
detected.  Sequences consisting only of argument deltas never emit
`message_stop`. -/
theorem ws_guard_abort :
    (∀ (s : RState) (i : Int) (d : String),
      20 < wsScan ((lookupInt s.wsRunLength i).getD 0) d →
      (rStep s (.functionCallArgsDelta i d)).2 =
        (if s.openBlockType = "" then [] else [.contentBlockStop s.blockIndex]) ++
          [.errorEvent "api_error" wsAbortMessage]) ∧
    (∀ (s : RState) (ds : List (Int × String)),
      hasMessageStop (rRun s
        (ds.map (fun p => .functionCallArgsDelta p.1 p.2))).2 = false) := by
  constructor
  · intro s i d hgt
    simp only [rStep]
    rw [if_pos hgt]
    unfold rClose
    split <;> simp_all
  · intro s ds
    induction ds generalizing s with
    | nil => rfl
    | cons p rest ih =>
        simp only [List.map, rRun]
        have hstep : hasMessageStop
            (rStep s (.functionCallArgsDelta p.1 p.2)).2 = false := by
          simp only [rStep]
          split
          · unfold rClose
            split <;> simp [hasMessageStop]
          · split
            · simp [hasMessageStop]
            · simp [hasMessageStop]
        have hrest := ih (rStep s (.functionCallArgsDelta p.1 p.2)).1
        simp only [hasMessageStop, List.any_append] at *
        simp [hstep, hrest]

/-- A machine state with one open tool block at index 0. -/
def wsOpenToolState : RState :=
  { blockIndex := 0, openBlockType := "tool_use", model := "m",
    toolCallBlocks := [(0, 0)], wsRunLength := [(0, 0)] }

/-- Witness for the abort clause of `ws_guard_abort`: from a state with
an open tool block and run 0, a pure-whitespace delta of 21 newlines
closes the block and emits exactly the documented error. -/
theorem ws_guard_abort_witness :
    (rStep wsOpenToolState
        (.functionCallArgsDelta 0 ⟨List.replicate 21 '\n'⟩)).2 =
      [.contentBlockStop 0, .errorEvent "api_error" wsAbortMessage] := by
  have h := ws_guard_abort.1 wsOpenToolState
    0 ⟨List.replicate 21 '\n'⟩ (by decide)
  simpa using h

/-! ## Claim C3: block start/stop balance and index contiguity -/

theorem intRangeLen_length (a : Int) (n : Nat) :
    (intRangeLen a n).length = n := by
  induction n generalizing a with
  | zero => rfl
  | succ n ih => simp [intRangeLen, ih]

/-- C3 counterexample: a truncated upstream stream (one content chunk,
no finish) leaves the text block open — the chat machine has emitted one
`content_block_start` and no `content_block_stop`, so the start/stop
counts are not equal for every upstream event sequence. -/
theorem block_balance_counterexample :
    startsOf (cRun (mkCState "m")
      [{ choices := [{ delta := { content := some "hi" } }] }]).2 = 1 ∧
    stopsOf (cRun (mkCState "m")
      [{ choices := [{ delta := { content := some "hi" } }] }]).2 = 0 := by
  refine ⟨by decide, by decide⟩

/-- C3 amended: for every upstream event sequence fed to either stream
machine, the emitted `content_block_start` indices are exactly the
contiguous range `0..N-1` in order (no gaps, no repeats), and the
number of `content_block_stop` events equals the number of starts minus
one exactly when a block is still open in the final state (equality
holds whenever the final state has no open block, in particular after a
terminating event). -/
theorem block_balance :
    (∀ (model : String) (chunks : List ChatCompletionChunk),
      startIdxList (cRun (mkCState model) chunks).2 =
        intRangeLen 0 (startsOf (cRun (mkCState model) chunks).2) ∧
      stopsOf (cRun (mkCState model) chunks).2 +
          openBit (cRun (mkCState model) chunks).1.openBlockType =
        startsOf (cRun (mkCState model) chunks).2) ∧
    (∀ (model : String) (events : List RespEvent),
      startIdxList (rRun (mkRState model) events).2 =
        intRangeLen 0 (startsOf (rRun (mkRState model) events).2) ∧
      stopsOf (rRun (mkRState model) events).2 +
          openBit (rRun (mkRState model) events).1.openBlockType =
        startsOf (rRun (mkRState model) events).2) := by
  constructor
  · intro model chunks
    have h := cRun_seg (mkCState model) chunks
    obtain ⟨n, _, hs, hc⟩ := h
    have hstarts : startsOf (cRun (mkCState model) chunks).2 = n := by
      simp [startsOf, hs, intRangeLen_length]
    constructor
    · rw [hs, hstarts]
      norm_num [mkCState]
    · rw [hstarts]
      simpa [mkCState, openBit] using hc
  · intro model events
    have h := rRun_seg (mkRState model) events
    obtain ⟨n, _, hs, hc⟩ := h
    have hstarts : startsOf (rRun (mkRState model) events).2 = n := by
      simp [startsOf, hs, intRangeLen_length]
    constructor
    · rw [hs, hstarts]
      norm_num [mkRState]
    · rw [hstarts]
      simpa [mkRState, openBit] using hc

/-! ## Claims C5/C6: the tool-result/text merge -/

theorem mergeTIT_type (tr : ContentBlock) (t : String) :
    (mergeTextIntoToolResult tr t).type = tr.type := by
  unfold mergeTextIntoToolResult
  cases tr.content <;> rfl

theorem modifyAt_types (f : ContentBlock → ContentBlock)
    (hf : ∀ b, (f b).type = b.type) :
    ∀ (bs : List ContentBlock) (i : Nat),
      (modifyAt f bs i).map (·.type) = bs.map (·.type) := by
  intro bs
  induction bs with
  | nil => intro i; rfl
  | cons b rest ih =>
      intro i
      cases i with
      | zero => simp [modifyAt, hf]
      | succ i => simp [modifyAt, ih]

theorem applyMerges_types (bs : List ContentBlock)
    (upds : List (Nat × String)) :
    (applyMerges bs upds).map (·.type) = bs.map (·.type) := by
  induction upds generalizing bs with
  | nil => rfl
  | cons p rest ih =>
      simp only [applyMerges, List.foldl_cons] at *
      rw [ih]
      exact modifyAt_types _ (fun b => mergeTIT_type b p.2) bs p.1

theorem classify_cons_tr (b : ContentBlock) (rest : List ContentBlock)
    (hb : b.type = "tool_result") :
    classifyBlocks (b :: rest) =
      (0 :: (classifyBlocks rest).1.map (· + 1),
       (classifyBlocks rest).2.1.map (· + 1),
       (classifyBlocks rest).2.2) := by
  simp [classifyBlocks, hb]

theorem classify_cons_tx (b : ContentBlock) (rest : List ContentBlock)
    (hb : b.type = "text") :
    classifyBlocks (b :: rest) =
      ((classifyBlocks rest).1.map (· + 1),
       0 :: (classifyBlocks rest).2.1.map (· + 1),
       (classifyBlocks rest).2.2) := by
  simp [classifyBlocks, hb]

theorem classify_cons_other (b : ContentBlock) (rest : List ContentBlock)
    (hb1 : b.type ≠ "tool_result") (hb2 : b.type ≠ "text") :
    classifyBlocks (b :: rest) =
      ((classifyBlocks rest).1.map (· + 1),
       (classifyBlocks rest).2.1.map (· + 1),
       false) := by
  simp [classifyBlocks, hb1, hb2]

theorem classify1_cons_tr (b : ContentBlock) (rest : List ContentBlock)
    (hb : b.type = "tool_result") :
    (classifyBlocks (b :: rest)).1 =
      0 :: (classifyBlocks rest).1.map (· + 1) := by
  rw [classify_cons_tr b rest hb]

theorem classify1_cons_tx (b : ContentBlock) (rest : List ContentBlock)
    (hb : b.type = "text") :
    (classifyBlocks (b :: rest)).1 = (classifyBlocks rest).1.map (· + 1) := by
  rw [classify_cons_tx b rest hb]

theorem classify_tr_length (bs : List ContentBlock) :
    (classifyBlocks bs).1.length =
      (bs.filter (fun b => b.type = "tool_result")).length := by
  induction bs with
  | nil => rfl
  | cons b rest ih =>
      by_cases h1 : b.type = "tool_result"
      · rw [classify_cons_tr b rest h1]
        simp [List.filter_cons, h1, ih]
      · by_cases h2 : b.type = "text"
        · rw [classify_cons_tx b rest h2]
          simp [List.filter_cons, h1, ih]
        · rw [classify_cons_other b rest h1 h2]
          simp [List.filter_cons, h1, ih]

theorem classify_tx_length (bs : List ContentBlock) :
    (classifyBlocks bs).2.1.length =
      (bs.filter (fun b => b.type = "text")).length := by
  induction bs with
  | nil => rfl
  | cons b rest ih =>
      by_cases h1 : b.type = "tool_result"
      · have h2 : ¬ b.type = "text" := by rw [h1]; decide
        rw [classify_cons_tr b rest h1]
        simp [List.filter_cons, h2, ih]
      · by_cases h2 : b.type = "text"
        · rw [classify_cons_tx b rest h2]
          simp [List.filter_cons, h2, ih]
        · rw [classify_cons_other b rest h1 h2]
          simp [List.filter_cons, h2, ih]

theorem classify_valid_cons (b : ContentBlock) (rest : List ContentBlock)
    (h : (classifyBlocks (b :: rest)).2.2 = true) :
    (b.type = "tool_result" ∨ b.type = "text") ∧
      (classifyBlocks rest).2.2 = true := by
  by_cases h1 : b.type = "tool_result"
  · rw [classify_cons_tr b rest h1] at h
    exact ⟨Or.inl h1, h⟩
  · by_cases h2 : b.type = "text"
    · rw [classify_cons_tx b rest h2] at h
      exact ⟨Or.inr h2, h⟩
    · rw [classify_cons_other b rest h1 h2] at h
      simp at h

theorem textAt_cons_succ (b : ContentBlock) (bs : List ContentBlock) (i : Nat) :
    textAt (b :: bs) (i + 1) = textAt bs i := rfl

theorem classify_texts (bs : List ContentBlock) :
    (classifyBlocks bs).2.1.map (textAt bs) =
      (bs.filter (fun b => b.type = "text")).map (·.text) := by
  induction bs with
  | nil => rfl
  | cons b rest ih =>
      have hshift : ∀ txs : List Nat,
          (txs.map (· + 1)).map (textAt (b :: rest)) = txs.map (textAt rest) := by
        intro txs
        rw [List.map_map]
        rfl
      by_cases h1 : b.type = "tool_result"
      · have h2 : ¬ b.type = "text" := by rw [h1]; decide
        rw [classify_cons_tr b rest h1]
        simp only [hshift, ih, List.filter_cons]
        simp [h2]
      · by_cases h2 : b.type = "text"
        · rw [classify_cons_tx b rest h2]
          simp only [List.map_cons, hshift, ih, List.filter_cons]
          simp [h2, textAt]
        · rw [classify_cons_other b rest h1 h2]
          simp only [hshift, ih, List.filter_cons]
          simp [h2]

theorem applyMerges_shift (x : ContentBlock) (l : List ContentBlock)
    (upds : List (Nat × String)) :
    applyMerges (x :: l) (upds.map (fun p => (p.1 + 1, p.2))) =
      x :: applyMerges l upds := by
  induction upds generalizing l with
  | nil => rfl
  | cons p rest ih =>
      simp only [applyMerges, List.map_cons, List.foldl_cons] at *
      rw [show modifyAt (mergeTextIntoToolResult · p.2) (x :: l) (p.1 + 1) =
        x :: modifyAt (mergeTextIntoToolResult · p.2) l p.1 from rfl]
      exact ih _

theorem applyMerges_cons_zero (x : ContentBlock) (l : List ContentBlock)
    (t : String) (upds : List (Nat × String)) :
    applyMerges (x :: l) ((0, t) :: upds) =
      applyMerges (mergeTextIntoToolResult x t :: l) upds := rfl

/-- The pairwise-merge bridge: on a message whose blocks are all
tool_results or texts, merging the k-th text into the k-th tool_result
and then dropping the texts is the same as zipping the tool_results
with the texts. -/
theorem applyMerges_pairwise (bs : List ContentBlock) (ts : List String)
    (hv : (classifyBlocks bs).2.2 = true)
    (hlen : (classifyBlocks bs).1.length = ts.length) :
    (applyMerges bs ((classifyBlocks bs).1.zip ts)).filter
        (fun b => ¬ b.type = "text") =
      List.zipWith mergeTextIntoToolResult
        (bs.filter (fun b => b.type = "tool_result")) ts := by
  induction bs generalizing ts with
  | nil =>
      simp [classifyBlocks, applyMerges]
  | cons b rest ih =>
      rcases classify_valid_cons b rest hv with ⟨hb, hvrest⟩
      rcases hb with h1 | h2
      · -- head is a tool_result: it consumes the first text
        rw [classify_cons_tr b rest h1] at hlen ⊢
        cases ts with
        | nil => simp at hlen
        | cons t ts' =>
            simp only [List.zip_cons_cons]
            have hzip : ((classifyBlocks rest).1.map (· + 1)).zip ts' =
                ((classifyBlocks rest).1.zip ts').map
                  (fun p => (p.1 + 1, p.2)) := by
              rw [List.zip_map_left]
              rfl
            rw [hzip, applyMerges_cons_zero, applyMerges_shift]
            have htype : ¬ (mergeTextIntoToolResult b t).type = "text" := by
              rw [mergeTIT_type, h1]; decide
            rw [List.filter_cons_of_pos (by simpa using htype)]
            rw [List.filter_cons_of_pos (by simpa using h1)]
            simp only [List.zipWith_cons_cons]
            congr 1
            exact ih ts' hvrest (by simpa using hlen)
      · -- head is a text: it is dropped on both sides
        rw [classify_cons_tx b rest h2] at hlen ⊢
        have hzip : ((classifyBlocks rest).1.map (· + 1)).zip ts =
            ((classifyBlocks rest).1.zip ts).map
              (fun p => (p.1 + 1, p.2)) := by
          rw [List.zip_map_left]
          rfl
        rw [hzip, applyMerges_shift]
        have htype : ¬ b.type = "tool_result" := by rw [h2]; decide
        rw [List.filter_cons_of_neg (by simpa using h2)]
        rw [List.filter_cons_of_neg (by simpa using htype)]
        exact ih ts hvrest (by simpa using hlen)

theorem getLastD_map_plus1 :
    ∀ (l : List Nat), l ≠ [] →
      (l.map (· + 1)).getLastD 0 = l.getLastD 0 + 1 := by
  intro l
  induction l with
  | nil => intro h; cases h rfl
  | cons a rest ih =>
      intro _
      cases rest with
      | nil => rfl
      | cons b t =>
          simp only [List.map_cons, List.getLastD_cons]
          have := ih (by simp)
          simpa [List.getLastD_cons] using this

/-- On an all-tool_result/text block list, dropping the texts is the
same as keeping the tool_results. -/
theorem filter_nontext_eq_tr (bs : List ContentBlock)
    (hv : (classifyBlocks bs).2.2 = true) :
    bs.filter (fun b => ¬ b.type = "text") =
      bs.filter (fun b => b.type = "tool_result") := by
  induction bs with
  | nil => rfl
  | cons b rest ih =>
      rcases classify_valid_cons b rest hv with ⟨hb, hvrest⟩
      rcases hb with h1 | h2
      · have h2 : ¬ b.type = "text" := by rw [h1]; decide
        rw [List.filter_cons_of_pos (by simpa using h2),
            List.filter_cons_of_pos (by simpa using h1), ih hvrest]
      · have h1 : ¬ b.type = "tool_result" := by rw [h2]; decide
        rw [List.filter_cons_of_neg (by simpa using h2),
            List.filter_cons_of_neg (by simpa using h1)]
        exact ih hvrest

/-- The all-into-last bridge: merging one text into the tool_result at
the last classified index and dropping the texts is the same as
modifying the last element of the filtered tool_result list. -/
theorem applyMerges_lastMerge (bs : List ContentBlock) (T : String)
    (hv : (classifyBlocks bs).2.2 = true)
    (hne : (classifyBlocks bs).1 ≠ []) :
    (applyMerges bs [((classifyBlocks bs).1.getLastD 0, T)]).filter
        (fun b => ¬ b.type = "text") =
      modifyAt (mergeTextIntoToolResult · T)
        (bs.filter (fun b => b.type = "tool_result"))
        ((bs.filter (fun b => b.type = "tool_result")).length - 1) := by
  induction bs with
  | nil => cases hne rfl
  | cons b rest ih =>
      rcases classify_valid_cons b rest hv with ⟨hb, hvrest⟩
      have hfreslen := classify_tr_length rest
      rcases hb with h1 | h2
      · -- head is a tool_result
        have hbtx : ¬ b.type = "text" := by rw [h1]; decide
        rw [classify1_cons_tr b rest h1]
        rw [List.filter_cons_of_pos (by simpa using h1)]
        by_cases hrest : (classifyBlocks rest).1 = []
        · -- the head is the only (hence last) tool_result
          have hfilrest : rest.filter (fun b => b.type = "tool_result") = [] := by
            have hl : (rest.filter (fun b => b.type = "tool_result")).length = 0 := by
              rw [← hfreslen, hrest]; rfl
            exact List.length_eq_zero.mp hl
          have hlast : (0 :: (classifyBlocks rest).1.map (· + 1)).getLastD 0 = 0 := by
            rw [hrest]; rfl
          rw [hlast]
          rw [show applyMerges (b :: rest) [(0, T)] =
            mergeTextIntoToolResult b T :: rest from rfl]
          rw [List.filter_cons_of_pos
            (by simpa using (show ¬ (mergeTextIntoToolResult b T).type = "text" by
              rw [mergeTIT_type]; exact hbtx))]
          rw [filter_nontext_eq_tr rest hvrest, hfilrest]
          rfl
        · -- the last tool_result is inside the tail
          have hlast : (0 :: (classifyBlocks rest).1.map (· + 1)).getLastD 0 =
              (classifyBlocks rest).1.getLastD 0 + 1 := by
            rw [List.getLastD_cons]
            have h := getLastD_map_plus1 (classifyBlocks rest).1 hrest
            cases hcl : (classifyBlocks rest).1 with
            | nil => cases hrest hcl
            | cons x t =>
                rw [hcl] at h
                simpa [List.getLastD_cons] using h
          rw [hlast]
          rw [show [((classifyBlocks rest).1.getLastD 0 + 1, T)] =
            ([((classifyBlocks rest).1.getLastD 0, T)]).map
              (fun p => (p.1 + 1, p.2)) from rfl]
          rw [applyMerges_shift]
          rw [List.filter_cons_of_pos (by simpa using hbtx)]
          rw [ih hvrest hrest]
          cases hfl : rest.filter (fun b => b.type = "tool_result") with
          | nil =>
              have hflen : 0 < (rest.filter
                  (fun b => b.type = "tool_result")).length := by
                rw [← hfreslen]
                cases hcl : (classifyBlocks rest).1 with
                | nil => cases hrest hcl
                | cons x t => simp
              rw [hfl] at hflen
              simp at hflen
          | cons fb ft =>
              simp only [List.length_cons, Nat.succ_sub_one]
              rfl
      · -- head is a text: it is dropped on both sides
        have hbtr : ¬ b.type = "tool_result" := by rw [h2]; decide
        rw [classify1_cons_tx b rest h2] at hne ⊢
        have hrest : (classifyBlocks rest).1 ≠ [] := by
          intro hcl
          exact hne (by rw [hcl]; rfl)
        have hlast : ((classifyBlocks rest).1.map (· + 1)).getLastD 0 =
            (classifyBlocks rest).1.getLastD 0 + 1 :=
          getLastD_map_plus1 _ hrest
        rw [hlast]
        rw [show [((classifyBlocks rest).1.getLastD 0 + 1, T)] =
          ([((classifyBlocks rest).1.getLastD 0, T)]).map
            (fun p => (p.1 + 1, p.2)) from rfl]
        rw [applyMerges_shift]
        rw [List.filter_cons_of_neg (by simpa using h2)]
        rw [List.filter_cons_of_neg (by simpa using hbtr)]
        exact ih hvrest hrest

theorem modifyAt_length (f : ContentBlock → ContentBlock) :
    ∀ (bs : List ContentBlock) (i : Nat),
      (modifyAt f bs i).length = bs.length := by
  intro bs
  induction bs with
  | nil => intro i; rfl
  | cons b rest ih =>
      intro i
      cases i with
      | zero => rfl
      | succ i => simp [modifyAt, ih]

/-- The functional characterization of the per-message merge on a
message whose blocks are all tool_results or texts (with at least one of
each): with equal counts, the tool_results are zipped with the texts;
otherwise the non-empty texts are joined with `"\n"` into the last
tool_result (and nothing is merged when every text is empty); in every
case the text blocks are dropped. -/
theorem mergeMsgBlocks_spec (bs : List ContentBlock)
    (hv : (classifyBlocks bs).2.2 = true)
    (htr : (classifyBlocks bs).1 ≠ [])
    (htx : (classifyBlocks bs).2.1 ≠ []) :
    mergeMsgBlocks bs =
      (if (bs.filter (fun b => b.type = "tool_result")).length =
          ((bs.filter (fun b => b.type = "text")).map (·.text)).length then
        List.zipWith mergeTextIntoToolResult
          (bs.filter (fun b => b.type = "tool_result"))
          ((bs.filter (fun b => b.type = "text")).map (·.text))
      else if 0 < (((bs.filter (fun b => b.type = "text")).map
          (·.text)).filter (· ≠ "")).length then
        modifyAt (mergeTextIntoToolResult · (String.intercalate "\n"
            (((bs.filter (fun b => b.type = "text")).map
              (·.text)).filter (· ≠ ""))))
          (bs.filter (fun b => b.type = "tool_result"))
          ((bs.filter (fun b => b.type = "tool_result")).length - 1)
      else bs.filter (fun b => b.type = "tool_result")) := by
  have htrlen := classify_tr_length bs
  have htxlen := classify_tx_length bs
  have htexts := classify_texts bs
  have htrpos : 0 < (classifyBlocks bs).1.length :=
    List.length_pos.mpr htr
  have htxpos : 0 < (classifyBlocks bs).2.1.length :=
    List.length_pos.mpr htx
  have hcond : ¬ (¬ (classifyBlocks bs).2.2 = true ∨
      (classifyBlocks bs).1.length = 0 ∨
      (classifyBlocks bs).2.1.length = 0) := by
    push_neg
    exact ⟨hv, by omega, by omega⟩
  unfold mergeMsgBlocks
  rcases hcb : classifyBlocks bs with ⟨trs, txs, valid⟩
  rw [hcb] at htrlen htxlen htexts htrpos htxpos hcond hv htr htx
  dsimp only at htrlen htxlen htexts htrpos htxpos hcond hv htr htx ⊢
  rw [if_neg hcond]
  by_cases heq : trs.length = txs.length
  · -- equal counts: pairwise zip
    rw [if_pos heq]
    have hlen2 : (classifyBlocks bs).1.length =
        ((classifyBlocks bs).2.1.map (textAt bs)).length := by
      rw [hcb]; simpa using heq
    have hfil := applyMerges_pairwise bs ((classifyBlocks bs).2.1.map (textAt bs))
      (by rw [hcb]; exact hv) hlen2
    rw [hcb] at hfil
    dsimp only at hfil
    rw [hfil, htexts]
    have hzlen : 0 < (List.zipWith mergeTextIntoToolResult
        (bs.filter (fun b => b.type = "tool_result"))
        ((bs.filter (fun b => b.type = "text")).map (·.text))).length := by
      rw [List.length_zipWith]
      have h1 : 0 < (bs.filter (fun b => b.type = "tool_result")).length := by
        omega
      have h2 : 0 < ((bs.filter (fun b => b.type = "text")).map
          (·.text)).length := by
        simp only [List.length_map]
        omega
      omega
    rw [if_pos hzlen]
    rw [if_pos (by simp only [List.length_map]; omega)]
  · -- unequal counts: all-into-last
    have hspecne : ¬ ((bs.filter (fun b => b.type = "tool_result")).length =
        ((bs.filter (fun b => b.type = "text")).map (·.text)).length) := by
      simp only [List.length_map]
      omega
    rw [if_neg heq]
    rw [htexts]
    rw [if_neg hspecne]
    by_cases hat : 0 < (((bs.filter (fun b => b.type = "text")).map
        (·.text)).filter (· ≠ "")).length
    · have hatG : (((bs.filter (fun b => b.type = "text")).map
          (·.text)).filter (· ≠ "")).length > 0 := hat
      rw [if_pos hatG]
      rw [if_pos hat]
      have hfil := applyMerges_lastMerge bs
        (String.intercalate "\n" (((bs.filter (fun b => b.type = "text")).map
          (·.text)).filter (· ≠ "")))
        (by rw [hcb]; exact hv) (by rw [hcb]; exact htr)
      rw [hcb] at hfil
      dsimp only at hfil
      rw [hfil]
      have hmlen : (modifyAt (mergeTextIntoToolResult ·
          (String.intercalate "\n" (((bs.filter
            (fun b => b.type = "text")).map (·.text)).filter (· ≠ ""))))
          (bs.filter (fun b => b.type = "tool_result"))
          ((bs.filter (fun b => b.type = "tool_result")).length - 1)).length > 0 := by
        rw [modifyAt_length]
        omega
      rw [if_pos hmlen]
    · have hatG : ¬ ((((bs.filter (fun b => b.type = "text")).map
          (·.text)).filter (· ≠ "")).length > 0) := hat
      rw [if_neg hatG]
      rw [if_neg hat]
      rw [filter_nontext_eq_tr bs (by rw [hcb]; exact hv)]
      have hflen : (bs.filter (fun b => b.type = "tool_result")).length > 0 := by
        omega
      rw [if_pos hflen]

theorem mem_zipWith_type :
    ∀ (l : List ContentBlock) (ts : List String) (b : ContentBlock),
      b ∈ List.zipWith mergeTextIntoToolResult l ts →
      ∃ a, a ∈ l ∧ b.type = a.type := by
  intro l
  induction l with
  | nil => intro ts b h; simp at h
  | cons x rest ih =>
      intro ts b h
      cases ts with
      | nil => simp at h
      | cons t ts' =>
          simp only [List.zipWith_cons_cons, List.mem_cons] at h
          rcases h with h | h
          · exact ⟨x, by simp, by rw [h, mergeTIT_type]⟩
          · rcases ih ts' b h with ⟨a, ha, hty⟩
            exact ⟨a, by simp [ha], hty⟩

theorem mem_modifyAt_type (f : ContentBlock → ContentBlock)
    (hf : ∀ b, (f b).type = b.type) :
    ∀ (l : List ContentBlock) (i : Nat) (b : ContentBlock),
      b ∈ modifyAt f l i → ∃ a, a ∈ l ∧ b.type = a.type := by
  intro l
  induction l with
  | nil => intro i b h; simp [modifyAt] at h
  | cons x rest ih =>
      intro i b h
      cases i with
      | zero =>
          simp only [modifyAt, List.mem_cons] at h
          rcases h with h | h
          · exact ⟨x, by simp, by rw [h, hf]⟩
          · exact ⟨b, by simp [h], rfl⟩
      | succ i =>
          simp only [modifyAt, List.mem_cons] at h
          rcases h with h | h
          · exact ⟨x, by simp, by rw [h]⟩
          · rcases ih i b h with ⟨a, ha, hty⟩
            exact ⟨a, by simp [ha], hty⟩

/-- After a successful merge, no block of the message is a text
block. -/
theorem mergeMsgBlocks_no_text (bs : List ContentBlock)
    (hv : (classifyBlocks bs).2.2 = true)
    (htr : (classifyBlocks bs).1 ≠ [])
    (htx : (classifyBlocks bs).2.1 ≠ []) :
    ∀ b ∈ mergeMsgBlocks bs, ¬ b.type = "text" := by
  rw [mergeMsgBlocks_spec bs hv htr htx]
  intro b hb
  have hfromTR : (∃ a, a ∈ bs.filter (fun b => b.type = "tool_result") ∧
      b.type = a.type) → ¬ b.type = "text" := by
    rintro ⟨a, ha, hty⟩
    have := List.of_mem_filter ha
    simp only [decide_eq_true_eq] at this
    rw [hty, this]
    decide
  split_ifs at hb with h1 h2
  · exact hfromTR (mem_zipWith_type _ _ b hb)
  · exact hfromTR (mem_modifyAt_type _ (fun a => mergeTIT_type a _) _ _ b hb)
  · exact hfromTR ⟨b, hb, rfl⟩

/-- The request-level merge: for a non-compact request, the blocks of
every user message after normalization are exactly `mergeMsgBlocks` of
its original blocks. -/
theorem mergeToolResultBlocks_get (req : AnthropicRequest) (k : Nat)
    (m : AnthropicMsg) (hc : isCompactRequest req = false)
    (hm : req.messages.get? k = some m) (hrole : m.role = "user") :
    ∃ m', (mergeToolResultBlocks req).messages.get? k = some m' ∧
      ParseMessageContent m'.content =
        mergeMsgBlocks (ParseMessageContent m.content) := by
  unfold mergeToolResultBlocks
  rw [if_neg (by simp [hc])]
  simp only [List.get?_map, hm, Option.map_some]
  refine ⟨_, rfl, ?_⟩
  dsimp only
  rw [if_pos hrole]
  split
  case isTrue h => rw [h]
  case isFalse h => rfl

/-- A user message holding a tool_result, a text and an image block. -/
def mixedBlocksMsg : AnthropicMsg :=
  { role := "user",
    content := .blocks
      [{ type := "tool_result", toolUseId := "t1", content := .str "R" },
       { type := "text", text := "A" },
       { type := "image", source := some {} }] }

/-- A request whose only user message mixes tool_result, text and image
blocks. -/
def mixedBlocksReq : AnthropicRequest := { messages := [mixedBlocksMsg] }

/-- C5 counterexample: a user message holding a tool_result, a text and
an image block is left completely untouched by the normalizer (the
classification loop flags it invalid), so its text block survives even
though the message contained at least one tool_result and one text
block. -/
theorem merge_drops_text_counterexample :
    (mergeToolResultBlocks mixedBlocksReq).messages = [mixedBlocksMsg] ∧
    (ParseMessageContent mixedBlocksMsg.content).map (·.type) =
      ["tool_result", "text", "image"] := by
  refine ⟨by decide, by decide⟩

/-- C5 amended: after normalization of a non-compact request, a user
message that contained at least one tool_result and at least one text
block contains no text block, provided every block of the message is a
tool_result or a text block (messages holding any other block type are
skipped by the normalizer and keep their text blocks). -/
theorem merged_user_msg_no_text :
    ∀ (req : AnthropicRequest) (k : Nat) (m m' : AnthropicMsg),
      isCompactRequest req = false →
      req.messages.get? k = some m →
      m.role = "user" →
      (classifyBlocks (ParseMessageContent m.content)).2.2 = true →
      (classifyBlocks (ParseMessageContent m.content)).1 ≠ [] →
      (classifyBlocks (ParseMessageContent m.content)).2.1 ≠ [] →
      (mergeToolResultBlocks req).messages.get? k = some m' →
      ∀ b ∈ ParseMessageContent m'.content, ¬ b.type = "text" := by
  intro req k m m' hc hm hrole hv htr htx hm'
  obtain ⟨m'', hg, hp⟩ := mergeToolResultBlocks_get req k m hc hm hrole
  rw [hm'] at hg
  cases hg
  rw [hp]
  exact mergeMsgBlocks_no_text _ hv htr htx

/-- The S2 message of the spec: text/tool_result alternating. -/
def pairedMsg : AnthropicMsg :=
  { role := "user",
    content := .blocks
      [{ type := "text", text := "A" },
       { type := "tool_result", toolUseId := "t1", content := .str "R1" },
       { type := "text", text := "B" },
       { type := "tool_result", toolUseId := "t2", content := .str "R2" }] }

/-- A request holding only the S2 message. -/
def pairedReq : AnthropicRequest := { messages := [pairedMsg] }

/-- The S2 message after normalization. -/
def pairedMergedMsg : AnthropicMsg :=
  { role := "user",
    content := .blocks
      [{ type := "tool_result", toolUseId := "t1", content := .str "R1\n\nA" },
       { type := "tool_result", toolUseId := "t2", content := .str "R2\n\nB" }] }

/-- Witness for `merged_user_msg_no_text` at the S2 request, evaluated
on the first merged block. -/
theorem merged_user_msg_no_text_witness :
    ¬ ({ type := "tool_result", toolUseId := "t1",
         content := .str "R1\n\nA" } : ContentBlock).type = "text" :=
  merged_user_msg_no_text pairedReq 0 pairedMsg pairedMergedMsg
    (by decide) rfl rfl (by decide) (by decide) (by decide) (by decide)
    { type := "tool_result", toolUseId := "t1", content := .str "R1\n\nA" }
    (List.Mem.head _)

/-- A user message where tool_result and text counts differ and one text
is empty. -/
def unevenMsg : AnthropicMsg :=
  { role := "user",
    content := .blocks
      [{ type := "tool_result", toolUseId := "t1", content := .str "" },
       { type := "text", text := "" },
       { type := "text", text := "A" }] }

/-- A request holding only the uneven message. -/
def unevenReq : AnthropicRequest := { messages := [unevenMsg] }

/-- C6 counterexample: with one tool_result and the texts `""` and
`"A"`, the normalizer merges only the non-empty texts — the result
content is `"A"`, not the claim's join of all text blocks
`"" ++ "\n" ++ "A" = "\nA"` (empty text blocks are silently dropped
from the join, and an empty existing string takes no `"\n\n"`
separator). -/
theorem merge_join_counterexample :
    (mergeToolResultBlocks unevenReq).messages =
      [{ role := "user",
         content := .blocks
           [{ type := "tool_result", toolUseId := "t1",
              content := .str "A" }] }] ∧
    String.intercalate "\n" [("" : String), "A"] = "\nA" ∧
    ("A" : String) ≠ "\nA" := by
  refine ⟨by decide, by decide, by decide⟩

/-- C6 amended: on a non-compact request, for every user message whose
blocks are all tool_results or texts with at least one of each: with
equal counts the k-th text is merged into the k-th tool_result
(appended as a text block when the content is an array, concatenated
with `"\n\n"` onto a non-empty existing string, replacing an empty
one); with unequal counts the non-empty texts joined with `"\n"` are
merged into the last tool_result (and nothing is merged when every text
is empty); the text blocks are then dropped. -/
theorem merge_tool_result_text_shapes :
    ∀ (req : AnthropicRequest) (k : Nat) (m m' : AnthropicMsg),
      isCompactRequest req = false →
      req.messages.get? k = some m →
      m.role = "user" →
      (classifyBlocks (ParseMessageContent m.content)).2.2 = true →
      (classifyBlocks (ParseMessageContent m.content)).1 ≠ [] →
      (classifyBlocks (ParseMessageContent m.content)).2.1 ≠ [] →
      (mergeToolResultBlocks req).messages.get? k = some m' →
      ParseMessageContent m'.content =
        (if ((ParseMessageContent m.content).filter
            (fun b => b.type = "tool_result")).length =
            (((ParseMessageContent m.content).filter
              (fun b => b.type = "text")).map (·.text)).length then
          List.zipWith mergeTextIntoToolResult
            ((ParseMessageContent m.content).filter
              (fun b => b.type = "tool_result"))
            (((ParseMessageContent m.content).filter
              (fun b => b.type = "text")).map (·.text))
        else if 0 < ((((ParseMessageContent m.content).filter
            (fun b => b.type = "text")).map (·.text)).filter
              (· ≠ "")).length then
          modifyAt (mergeTextIntoToolResult · (String.intercalate "\n"
              ((((ParseMessageContent m.content).filter
                (fun b => b.type = "text")).map (·.text)).filter (· ≠ ""))))
            ((ParseMessageContent m.content).filter
              (fun b => b.type = "tool_result"))
            (((ParseMessageContent m.content).filter
              (fun b => b.type = "tool_result")).length - 1)
        else (ParseMessageContent m.content).filter
          (fun b => b.type = "tool_result")) := by
  intro req k m m' hc hm hrole hv htr htx hm'
  obtain ⟨m'', hg, hp⟩ := mergeToolResultBlocks_get req k m hc hm hrole
  rw [hm'] at hg
  cases hg
  rw [hp]
  exact mergeMsgBlocks_spec _ hv htr htx

/-- Witness for `merge_tool_result_text_shapes` at the S2 request:
pairwise merging. -/
theorem merge_tool_result_text_shapes_witness :
    ParseMessageContent pairedMergedMsg.content =
      List.zipWith mergeTextIntoToolResult
        ((ParseMessageContent pairedMsg.content).filter
          (fun b => b.type = "tool_result"))
        (((ParseMessageContent pairedMsg.content).filter
          (fun b => b.type = "text")).map (·.text)) := by
  have h := merge_tool_result_text_shapes pairedReq 0 pairedMsg pairedMergedMsg
    (by decide) rfl rfl (by decide) (by decide) (by decide) (by decide)
  rw [h]
  rw [if_pos (by decide)]

end CopilotProxy
